import Mathlib

/-!
Verification of the `@isaacs/ttlcache` TTL cache (TypeScript source `src/index.ts`,
the current hybrid-TypeScript revision of `src/index.js` in this repository).

The cache state is embedded shallowly:
* keys and clock instants are `Nat` (the clock supplies integer milliseconds),
* JavaScript values are `JSVal := Option Nat` (`none` models `undefined`),
* expiration timestamps are `ENum` (`fin e` or `inf`, JS `Infinity`),
* `this.data` and `this.expirationMap` (JS `Map`s) are association lists with
  insertion-ordered keys,
* `this.expirations` (a null-prototype object keyed by integer expirations) is a
  list of buckets kept sorted by ascending timestamp, modelling the V8
  integer-key iteration order that the source documents and relies on,
* the single `setTimeout` timer is modelled by the stored handle
  (`timer`/`timerExpiration`) plus the multiset `pending` of outstanding
  scheduled callbacks (`(handle id, target)`), so that "at most one callback is
  outstanding" is a provable property rather than a modelling artifact,
* `dispose` invocations are recorded in an event log `log`; the purge engines
  are additionally parameterised by an arbitrary (possibly re-entrant) dispose
  function for the detach-before-dispose theorem.
-/

/-- JS `Infinity`-or-finite numbers, used for expirations, ttl values and `max`. -/
inductive ENum where
  | fin (n : Nat) : ENum
  | inf : ENum
deriving DecidableEq, Repr

/-- A JavaScript value slot: `none` is `undefined`. -/
def JSVal := Option Nat
deriving DecidableEq, Repr

/-- Dispose reasons, the closed enumeration `'set' | 'delete' | 'stale' | 'evict'`. -/
inductive Reason where
  | set | delete | stale | evict
deriving DecidableEq, Repr

/-- Association-list lookup (JS `Map.get`, `undefined` mapped to `none`). -/
def alookup {α : Type} : List (Nat × α) → Nat → Option α
  | [], _ => none
  | (k', v) :: t, k => if k' = k then some v else alookup t k

/-- Association-list update (JS `Map.set`): replace in place, else append. -/
def aset {α : Type} : List (Nat × α) → Nat → α → List (Nat × α)
  | [], k, v => [(k, v)]
  | (k', v') :: t, k, v => if k' = k then (k, v) :: t else (k', v') :: aset t k v

/-- Association-list removal (JS `Map.delete` / `delete obj[k]`). -/
def aerase {α : Type} : List (Nat × α) → Nat → List (Nat × α)
  | [], _ => []
  | (k', v) :: t, k => if k' = k then aerase t k else (k', v) :: aerase t k

/-- Modify the entry at a key in place, if present. -/
def amodify {α : Type} : List (Nat × α) → Nat → (α → α) → List (Nat × α)
  | [], _, _ => []
  | (k', v') :: t, k, f => if k' = k then (k', f v') :: t else (k', v') :: amodify t k f

theorem alookup_aset_self {α : Type} (l : List (Nat × α)) (k : Nat) (v : α) :
    alookup (aset l k v) k = some v := by
  induction l with
  | nil => simp [aset, alookup]
  | cons p t ih =>
    obtain ⟨k', v'⟩ := p
    by_cases h : k' = k <;> simp [aset, alookup, h, ih]

theorem alookup_aset_ne {α : Type} (l : List (Nat × α)) {k k' : Nat} (v : α)
    (h : k' ≠ k) : alookup (aset l k v) k' = alookup l k' := by
  induction l with
  | nil => simp [aset, alookup, Ne.symm h]
  | cons p t ih =>
    obtain ⟨k0, v0⟩ := p
    by_cases h0 : k0 = k
    · subst h0
      simp [aset, alookup, Ne.symm h]
    · simp [aset, alookup, h0, ih]

theorem alookup_aerase_self {α : Type} (l : List (Nat × α)) (k : Nat) :
    alookup (aerase l k) k = none := by
  induction l with
  | nil => simp [aerase, alookup]
  | cons p t ih =>
    obtain ⟨k0, v0⟩ := p
    by_cases h0 : k0 = k <;> simp [aerase, alookup, h0, ih]

theorem alookup_aerase_ne {α : Type} (l : List (Nat × α)) {k k' : Nat}
    (h : k' ≠ k) : alookup (aerase l k) k' = alookup l k' := by
  induction l with
  | nil => simp [aerase, alookup]
  | cons p t ih =>
    obtain ⟨k0, v0⟩ := p
    by_cases h0 : k0 = k
    · subst h0
      simp [aerase, alookup, Ne.symm h, ih]
    · simp [aerase, alookup, h0, ih]

theorem alookup_eq_none_of_not_mem_fst {α : Type} {l : List (Nat × α)} {k : Nat}
    (h : k ∉ l.map Prod.fst) : alookup l k = none := by
  induction l with
  | nil => simp [alookup]
  | cons p t ih =>
    obtain ⟨k0, v0⟩ := p
    simp only [List.map_cons, List.mem_cons] at h
    push_neg at h
    simp [alookup, Ne.symm h.1, ih h.2]

theorem mem_fst_of_alookup_isSome {α : Type} {l : List (Nat × α)} {k : Nat}
    (h : (alookup l k).isSome) : k ∈ l.map Prod.fst := by
  by_contra hmem
  rw [alookup_eq_none_of_not_mem_fst hmem] at h
  simp at h

theorem mem_fst_aset {α : Type} (l : List (Nat × α)) (k k' : Nat) (v : α) :
    k' ∈ (aset l k v).map Prod.fst ↔ k' = k ∨ k' ∈ l.map Prod.fst := by
  induction l with
  | nil => simp [aset]
  | cons p t ih =>
    obtain ⟨k0, v0⟩ := p
    by_cases h0 : k0 = k
    · subst h0
      simp [aset]
    · simp [aset, h0, ih]
      tauto

theorem nodup_fst_aset {α : Type} {l : List (Nat × α)} (k : Nat) (v : α)
    (h : (l.map Prod.fst).Nodup) : ((aset l k v).map Prod.fst).Nodup := by
  induction l with
  | nil => simp [aset]
  | cons p t ih =>
    obtain ⟨k0, v0⟩ := p
    simp only [List.map_cons, List.nodup_cons] at h
    by_cases h0 : k0 = k
    · subst h0
      simpa [aset, List.nodup_cons] using h
    · simp only [aset, if_neg h0, List.map_cons, List.nodup_cons]
      refine ⟨?_, ih h.2⟩
      intro hmem
      rcases (mem_fst_aset t k k0 v).mp hmem with h1 | h1
      · exact h0 h1
      · exact h.1 h1

theorem mem_fst_aerase {α : Type} {l : List (Nat × α)} {k k' : Nat}
    (h : k' ∈ (aerase l k).map Prod.fst) : k' ∈ l.map Prod.fst := by
  induction l with
  | nil => simp [aerase] at h
  | cons p t ih =>
    obtain ⟨k0, v0⟩ := p
    by_cases h0 : k0 = k
    · simp only [aerase, if_pos h0] at h
      simp [ih h]
    · simp only [aerase, if_neg h0, List.map_cons, List.mem_cons] at h
      rcases h with h | h
      · simp [h]
      · simp [ih h]

theorem nodup_fst_aerase {α : Type} (l : List (Nat × α)) (k : Nat)
    (h : (l.map Prod.fst).Nodup) : ((aerase l k).map Prod.fst).Nodup := by
  induction l with
  | nil => simp [aerase]
  | cons p t ih =>
    obtain ⟨k0, v0⟩ := p
    simp only [List.map_cons, List.nodup_cons] at h
    by_cases h0 : k0 = k
    · simp only [aerase, if_pos h0]
      exact ih h.2
    · simp only [aerase, if_neg h0, List.map_cons, List.nodup_cons]
      exact ⟨fun hmem => h.1 (mem_fst_aerase hmem), ih h.2⟩

theorem length_aset_of_mem {α : Type} {l : List (Nat × α)} {k : Nat} (v : α)
    (h : (alookup l k).isSome) : (aset l k v).length = l.length := by
  induction l with
  | nil => simp [alookup] at h
  | cons p t ih =>
    obtain ⟨k0, v0⟩ := p
    by_cases h0 : k0 = k
    · simp [aset, h0]
    · simp only [alookup, if_neg h0] at h
      simp [aset, h0, ih h]

theorem length_aerase_le {α : Type} (l : List (Nat × α)) (k : Nat) :
    (aerase l k).length ≤ l.length := by
  induction l with
  | nil => simp [aerase]
  | cons p t ih =>
    obtain ⟨k0, v0⟩ := p
    by_cases h0 : k0 = k <;> simp [aerase, h0] <;> omega

theorem amodify_map_fst {α : Type} (l : List (Nat × α)) (k : Nat) (f : α → α) :
    (amodify l k f).map Prod.fst = l.map Prod.fst := by
  induction l with
  | nil => simp [amodify]
  | cons p t ih =>
    obtain ⟨k0, v0⟩ := p
    by_cases h0 : k0 = k <;> simp [amodify, h0, ih]

theorem alookup_amodify_ne {α : Type} (l : List (Nat × α)) {k k' : Nat} (f : α → α)
    (h : k' ≠ k) : alookup (amodify l k f) k' = alookup l k' := by
  induction l with
  | nil => simp [amodify]
  | cons p t ih =>
    obtain ⟨k0, v0⟩ := p
    by_cases h0 : k0 = k
    · subst h0
      simp [amodify, alookup, Ne.symm h]
    · simp [amodify, alookup, h0, ih]

theorem alookup_amodify_self {α : Type} {l : List (Nat × α)} {k : Nat} {v : α} (f : α → α)
    (h : alookup l k = some v) : alookup (amodify l k f) k = some (f v) := by
  induction l with
  | nil => simp [alookup] at h
  | cons p t ih =>
    obtain ⟨k0, v0⟩ := p
    by_cases h0 : k0 = k
    · subst h0
      simp [alookup] at h
      simp [amodify, alookup, h]
    · simp only [alookup, if_neg h0] at h
      simp [amodify, alookup, h0, ih h]

/-! ## Bucket helpers for `this.expirations`

`this.expirations` is a null-prototype object whose keys are integer expiration
timestamps.  V8 iterates such integer keys in ascending numeric order, which the
source documents and relies on; we model the object as a list of
`(timestamp, bucket)` pairs kept sorted by ascending timestamp. -/

def bget (l : List (Nat × List Nat)) (e : Nat) : Option (List Nat) := alookup l e

/-- `this.expirations[expiration] = []`: creating a fresh integer key places the
bucket at its ascending-order position. -/
def binsertEmpty : List (Nat × List Nat) → Nat → List (Nat × List Nat)
  | [], e => [(e, [])]
  | (e', ks) :: t, e =>
    if e < e' then (e, []) :: (e', ks) :: t else (e', ks) :: binsertEmpty t e

/-- `this.expirations[expiration].push(key)`. -/
def bappendKey (l : List (Nat × List Nat)) (e k : Nat) : List (Nat × List Nat) :=
  amodify l e (fun ks => ks ++ [k])

/-! ## The cache state -/

/-- The cache state: the three storage structures, the constructor options, the
single stored timer (`timer` is the stored `setTimeout` handle id,
`timerExpiration` its target), the multiset `pending` of outstanding scheduled
callbacks as `(handle id, target)` pairs, and the log of `dispose` invocations.
In the source the handle and `timerExpiration` are always assigned and cleared
together. -/
structure Cache where
  expirations : List (Nat × List Nat)
  data : List (Nat × JSVal)
  expirationMap : List (Nat × ENum)
  ttl : Option ENum
  max : ENum
  updateAgeOnGet : Bool
  checkAgeOnGet : Bool
  noUpdateTTL : Bool
  noDisposeOnSet : Bool
  timer : Option Nat
  timerExpiration : Option Nat
  pending : List (Nat × Nat)
  nextId : Nat
  log : List (JSVal × Nat × Reason)
deriving DecidableEq, Repr

/-- `isPosIntOrInf` applied to a possibly-`undefined` ttl
(`n === Infinity || (!!n && n === Math.floor(n) && n > 0 && isFinite(n))`). -/
def isPosIntOrInf : Option ENum → Bool
  | some .inf => true
  | some (.fin n) => decide (1 ≤ n)
  | none => false

/-- The constructor's `max` validation (`isPosIntOrInf(max)`). -/
def validMax : ENum → Bool
  | .inf => true
  | .fin m => decide (1 ≤ m)

/-- The constructor's `ttl` validation (`ttl === undefined || isPosIntOrInf(ttl)`). -/
def validCtorTtl : Option ENum → Bool
  | none => true
  | some t => isPosIntOrInf (some t)

/-- The freshly constructed cache. -/
def mkCache (maxv : ENum) (ttlv : Option ENum)
    (updateAgeOnGet checkAgeOnGet noUpdateTTL noDisposeOnSet : Bool) : Cache :=
  { expirations := [], data := [], expirationMap := [], ttl := ttlv, max := maxv,
    updateAgeOnGet := updateAgeOnGet, checkAgeOnGet := checkAgeOnGet,
    noUpdateTTL := noUpdateTTL, noDisposeOnSet := noDisposeOnSet,
    timer := none, timerExpiration := none, pending := [], nextId := 0, log := [] }

/-- JS `Map.get` flattened to a JS value (`undefined` when the key is absent). -/
def flatGet (l : List (Nat × JSVal)) (k : Nat) : JSVal :=
  match alookup l k with
  | some v => v
  | none => none

/-- `has(key)`: `this.data.has(key)`. -/
def hasKey (s : Cache) (k : Nat) : Bool := (alookup s.data k).isSome

/-! ## Timer scheduler -/

/-- Truthiness of `this.timerExpiration && this.timerExpiration < expiration`. -/
def truthyLt : Option Nat → Nat → Bool
  | some te, e => decide (te ≠ 0) && decide (te < e)
  | none, _ => false

/-- `setTimer(expiration, ttl)`: keep an earlier armed target, else clear the
stored timeout and schedule a fresh one for `expiration`.  (The `ttl` delay
argument only affects real-time latency, not the modelled state.) -/
def setTimer (s : Cache) (expiration : Nat) : Cache :=
  if truthyLt s.timerExpiration expiration then s
  else
    let s1 := match s.timer with
      | some id => { s with pending := s.pending.filter (fun p => p.1 ≠ id) }
      | none => s
    { s1 with
      pending := s1.pending ++ [(s1.nextId, expiration)],
      timer := some s1.nextId,
      nextId := s1.nextId + 1,
      timerExpiration := some expiration }

/-- `cancelTimer()`. -/
def cancelTimer (s : Cache) : Cache :=
  match s.timer with
  | some id =>
    { s with pending := s.pending.filter (fun p => p.1 ≠ id),
             timer := none, timerExpiration := none }
  | none => s

/-! ## setTTL, getRemainingTTL -/

/-- The bucket surgery shared verbatim by `setTTL` and `delete`:
`const exp = this.expirations[current]; if (!exp || exp.length <= 1) delete
this.expirations[current]; else this.expirations[current] = exp.filter(k2 =>
k2 !== key)`. -/
def bucketRemove (exps : List (Nat × List Nat)) (e k : Nat) : List (Nat × List Nat) :=
  match alookup exps e with
  | none => aerase exps e
  | some ks =>
    if ks.length ≤ 1 then aerase exps e
    else amodify exps e (fun l => l.filter (· ≠ k))

/-- The first half of `setTTL(key, ttl = this.ttl)`: "remove from the
expirations list, so it isn't purged".  For a key whose current expiration is
`Infinity`, `this.expirations[Infinity]` is `undefined`, so the removal branch
deletes a nonexistent property (a no-op). -/
def setTTLremove (s : Cache) (k : Nat) : Cache :=
  match alookup s.expirationMap k with
  | none => s
  | some cur =>
    match cur with
    | .inf => s
    | .fin e => { s with expirations := bucketRemove s.expirations e k }

/-- The second half of `setTTL`: `if (ttl && ttl !== Infinity)` reinsert at
`Math.floor(now() + ttl)` (creating the bucket and arming the timer when the
bucket is new), else record the never-expire sentinel.  Note the `else` branch
only writes the expiration map: never-expiring keys are put in no
`expirations` bucket by this revision of the source. -/
def setTTLinsert (s1 : Cache) (now k : Nat) (ttl : Option ENum) : Cache :=
  match ttl with
  | some (.fin n) =>
    if n = 0 then { s1 with expirationMap := aset s1.expirationMap k .inf }
    else
      let expiration := now + n
      let s2 := { s1 with expirationMap := aset s1.expirationMap k (.fin expiration) }
      let s3 := if (bget s2.expirations expiration).isNone then
          setTimer { s2 with expirations := binsertEmpty s2.expirations expiration } expiration
        else s2
      { s3 with expirations := bappendKey s3.expirations expiration k }
  | _ => { s1 with expirationMap := aset s1.expirationMap k .inf }

/-- `setTTL(key, ttl = this.ttl)`. -/
def setTTL (s : Cache) (now k : Nat) (ttl : Option ENum) : Cache :=
  setTTLinsert (setTTLremove s k) now k ttl

/-- `getRemainingTTL(key)`: `Infinity`, `max(0, ceil(expiration - now))`, or 0. -/
def getRemainingTTL (s : Cache) (now k : Nat) : ENum :=
  match alookup s.expirationMap k with
  | some .inf => .inf
  | some (.fin e) => .fin (e - now)
  | none => .fin 0

/-! ## delete -/

/-- `delete(key)`: detach from all three structures, dispose with reason
`'delete'`, cancel the timer when the cache became empty. -/
def deleteKey (s : Cache) (k : Nat) : Cache × Bool :=
  match alookup s.expirationMap k with
  | none => (s, false)
  | some current =>
    let value := flatGet s.data k
    let s1 := { s with data := aerase s.data k, expirationMap := aerase s.expirationMap k }
    let s2 := match current with
      | .inf => s1
      | .fin e => { s1 with expirations := bucketRemove s1.expirations e k }
    let s3 := { s2 with log := s2.log ++ [(value, k, .delete)] }
    let s4 := if s3.data.length = 0 then cancelTimer s3 else s3
    (s4, true)

/-! ## Purge engines

Both engines are parameterised by the dispose callback `d`, which receives the
cache state at invocation time and may return a mutated one (re-entrancy).  The
public operations instantiate `d` with the log-appending callback `logD`. -/

def DisposeFn : Type := Cache → JSVal → Nat → Reason → Cache

/-- The observing dispose callback: record the invocation in the log. -/
def logD : DisposeFn := fun s v k r => { s with log := s.log ++ [(v, k, r)] }

/-- Invoke the dispose callback on each `(key, value)` snapshot entry in order. -/
def disposeFold (d : DisposeFn) (r : Reason) (entries : List (Nat × JSVal)) (s : Cache) : Cache :=
  entries.foldl (fun st p => d st p.2 p.1 r) s

/-- The detach loop shared by both purge engines: for each key of the batch,
push `(key, this.data.get(key))` onto the snapshot, then delete the key from
`data` and `expirationMap`. -/
def detachAll : List (Nat × JSVal) → List (Nat × ENum) → List Nat →
    List (Nat × JSVal) × List (Nat × ENum) × List (Nat × JSVal)
  | dm, em, [] => (dm, em, [])
  | dm, em, k :: ks =>
    let v := flatGet dm k
    let r := detachAll (aerase dm k) (aerase em k) ks
    (r.1, r.2.1, (k, v) :: r.2.2)

/-- One pass of `purgeStale()`'s `for (const exp in this.expirations)` loop,
with the current property list length as fuel (each iteration consumes the
current head bucket; since buckets only hold finite timestamps in this revision
the `exp === 'Infinity'` guard can never fire).  The early `return` for a
not-yet-expired bucket skips the final `size === 0` timer-cancel check. -/
def psAux (d : DisposeFn) (now : Nat) : Nat → Cache → Cache
  | 0, s => s
  | f + 1, s =>
    match s.expirations with
    | [] => if s.data.length = 0 then cancelTimer s else s
    | (e, ks) :: rest =>
      if now < e then s
      else
        let s1 := { s with expirations := rest }
        let r := detachAll s1.data s1.expirationMap ks
        let s2 := { s1 with data := r.1, expirationMap := r.2.1 }
        let s3 := disposeFold d .stale r.2.2 s2
        psAux d now f s3

/-- `purgeStale()` parameterised by the dispose callback. -/
def purgeStaleD (d : DisposeFn) (s : Cache) (now : Nat) : Cache :=
  psAux d now (s.expirations.length + 1) s

/-- `purgeStale()` with the observing dispose callback. -/
def purgeStale (s : Cache) (now : Nat) : Cache := purgeStaleD logD s now

/-- `this.size > this.max` (always false for unbounded `max`). -/
def sizeGtMax (s : Cache) : Bool :=
  match s.max with
  | .inf => false
  | .fin m => decide (m < s.data.length)

/-- `this.size - keys.length >= this.max`, as JS number arithmetic
(`-Infinity`-aware, hence the `Int` subtraction). -/
def evictWholeBucket (s : Cache) (ks : List Nat) : Bool :=
  match s.max with
  | .inf => false
  | .fin m => decide ((m : Int) ≤ (s.data.length : Int) - (ks.length : Int))

/-- `const s = this.size - this.max`, clamped the way `splice(0, s)` uses it
(nonpositive and `-Infinity` counts remove nothing). -/
def spliceCount (s : Cache) : Nat :=
  match s.max with
  | .inf => 0
  | .fin m => ((s.data.length : Int) - (m : Int)).toNat

/-- One pass of `purgeToCapacity()`'s bucket loop.  The whole-bucket branch
deletes the bucket, detaches and disposes, then continues with the next bucket;
the splice branch removes only the overflow from the front of the bucket and
returns. -/
def ptcAux (d : DisposeFn) : Nat → Cache → Cache
  | 0, s => s
  | f + 1, s =>
    match s.expirations with
    | [] => s
    | (e, ks) :: rest =>
      if evictWholeBucket s ks then
        let s1 := { s with expirations := rest }
        let r := detachAll s1.data s1.expirationMap ks
        let s2 := { s1 with data := r.1, expirationMap := r.2.1 }
        let s3 := disposeFold d .evict r.2.2 s2
        ptcAux d f s3
      else
        let n := spliceCount s
        let s1 := { s with expirations := (e, ks.drop n) :: rest }
        let r := detachAll s1.data s1.expirationMap (ks.take n)
        let s2 := { s1 with data := r.1, expirationMap := r.2.1 }
        disposeFold d .evict r.2.2 s2

/-- `purgeToCapacity()` parameterised by the dispose callback. -/
def purgeToCapacityD (d : DisposeFn) (s : Cache) : Cache :=
  ptcAux d (s.expirations.length + 1) s

/-- `purgeToCapacity()` with the observing dispose callback. -/
def purgeToCapacity (s : Cache) : Cache := purgeToCapacityD logD s

/-- The `while (this.size > this.max) this.purgeToCapacity()` loop of `set`.
`none` models the loop never terminating (the body made no progress while the
guard stayed true). -/
def purgeLoopF : Nat → Cache → Option Cache
  | 0, s => if sizeGtMax s then none else some s
  | f + 1, s => if sizeGtMax s then purgeLoopF f (purgeToCapacity s) else some s

/-! ## set, get, clear, iteration, timer fire -/

/-- Result of `set`: normal return, `TypeError` for an invalid ttl, or
non-termination of the capacity loop. -/
inductive SetResult where
  | ok (s : Cache)
  | typeError
  | hang
deriving DecidableEq, Repr

/-- `set(key, val, {ttl, noUpdateTTL, noDisposeOnSet})`.  Option arguments are
`none` when not passed (so the constructor defaults apply). -/
def setOp (s : Cache) (now k : Nat) (v : JSVal) (ttlO : Option (Option ENum))
    (nuO ndO : Option Bool) : SetResult :=
  let ttl := match ttlO with | some t => t | none => s.ttl
  let noUpdateTTL := nuO.getD s.noUpdateTTL
  let noDisposeOnSet := ndO.getD s.noDisposeOnSet
  if isPosIntOrInf ttl = false then .typeError
  else
    let s1 :=
      if (alookup s.expirationMap k).isSome then
        let sa := if noUpdateTTL = false then setTTL s now k ttl else s
        let oldValue := flatGet sa.data k
        if oldValue ≠ none ∧ oldValue ≠ v then
          let sb := { sa with data := aset sa.data k v }
          if noDisposeOnSet = false then
            { sb with log := sb.log ++ [(oldValue, k, .set)] }
          else sb
        else sa
      else
        let sa := setTTL s now k ttl
        { sa with data := aset sa.data k v }
    match purgeLoopF (s1.data.length + s1.expirations.length + 1) s1 with
    | some s2 => .ok s2
    | none => .hang

/-- `get(key, {updateAgeOnGet, ttl, checkAgeOnGet})`, returning the value and
the resulting state. -/
def getOp (s : Cache) (now k : Nat) (uO : Option Bool) (tO : Option (Option ENum))
    (cO : Option Bool) : JSVal × Cache :=
  let updateAgeOnGet := uO.getD s.updateAgeOnGet
  let ttl := match tO with | some t => t | none => s.ttl
  let checkAgeOnGet := cO.getD s.checkAgeOnGet
  let val := flatGet s.data k
  if checkAgeOnGet = true ∧ getRemainingTTL s now k = .fin 0 then
    (none, (deleteKey s k).1)
  else
    let s' := if updateAgeOnGet = true then setTTL s now k ttl else s
    (val, s')

/-- The key sequence produced by `keys()` (bucket walk in index order). -/
def keysList (s : Cache) : List Nat :=
  s.expirations.foldr (fun b acc => b.2 ++ acc) []

/-- The `[key, value]` sequence produced by `entries()` and default iteration. -/
def entriesList (s : Cache) : List (Nat × JSVal) :=
  s.expirations.foldr (fun b acc => b.2.map (fun k => (k, flatGet s.data k)) ++ acc) []

/-- The value sequence produced by `values()`. -/
def valuesList (s : Cache) : List JSVal :=
  s.expirations.foldr (fun b acc => b.2.map (fun k => flatGet s.data k) ++ acc) []

/-- `clear()`.  In this revision the snapshot guard
`this.dispose !== TTLCache.prototype.dispose` is always true (the constructor
installs an own `dispose` field in both branches and the class body declares no
prototype `dispose`), so the `[...this]` snapshot is always taken. -/
def clear (s : Cache) : Cache :=
  let entries := entriesList s
  let s1 := { s with data := [], expirationMap := [] }
  let s2 := cancelTimer s1
  let s3 := { s2 with expirations := [] }
  { s3 with log := s3.log ++ entries.map (fun p => (p.2, p.1, Reason.delete)) }

/-- The body of the `setTimeout` callback installed by `setTimer`: the fired
callback is consumed, the stored handle fields are reset, `purgeStale()` runs,
and the timer is re-armed for the first remaining bucket. -/
def timerFire (s : Cache) (now fid : Nat) : Cache :=
  let s1 := { s with pending := s.pending.filter (fun p => p.1 ≠ fid),
                     timer := none, timerExpiration := none }
  let s2 := purgeStale s1 now
  match s2.expirations with
  | [] => s2
  | (e, _) :: _ => setTimer s2 e

/-! ## Reachable states -/

/-- States reachable from a freshly constructed cache by the public API
(with the observing dispose callback), including timer fires. -/
inductive Reachable : Cache → Prop where
  | init : ∀ maxv ttlv u c nu nd, validMax maxv = true → validCtorTtl ttlv = true →
      Reachable (mkCache maxv ttlv u c nu nd)
  | step_set : ∀ {s s'} (now k : Nat) (v : JSVal) tO nuO ndO, Reachable s →
      setOp s now k v tO nuO ndO = .ok s' → Reachable s'
  | step_get : ∀ {s} (now k : Nat) uO tO cO, Reachable s →
      Reachable (getOp s now k uO tO cO).2
  | step_setTTL : ∀ {s} (now k : Nat) t, Reachable s → Reachable (setTTL s now k t)
  | step_delete : ∀ {s} (k : Nat), Reachable s → Reachable (deleteKey s k).1
  | step_clear : ∀ {s}, Reachable s → Reachable (clear s)
  | step_purgeStale : ∀ {s} (now : Nat), Reachable s → Reachable (purgeStale s now)
  | step_purgeToCapacity : ∀ {s}, Reachable s → Reachable (purgeToCapacity s)
  | step_cancelTimer : ∀ {s}, Reachable s → Reachable (cancelTimer s)
  | step_fire : ∀ {s} (now fid t : Nat), Reachable s → (fid, t) ∈ s.pending →
      Reachable (timerFire s now fid)

/-! ## Further association-list and bucket lemmas -/

theorem mem_of_alookup_eq_some {α : Type} {l : List (Nat × α)} {e : Nat} {v : α}
    (h : alookup l e = some v) : (e, v) ∈ l := by
  induction l with
  | nil => simp [alookup] at h
  | cons p t ih =>
    obtain ⟨k0, v0⟩ := p
    by_cases h0 : k0 = e
    · subst h0
      simp [alookup] at h
      simp [h]
    · simp only [alookup, if_neg h0] at h
      simp [ih h]

theorem alookup_eq_some_of_mem_nodup {α : Type} {l : List (Nat × α)}
    (hn : (l.map Prod.fst).Nodup) {e : Nat} {v : α} (hm : (e, v) ∈ l) :
    alookup l e = some v := by
  induction l with
  | nil => simp at hm
  | cons p t ih =>
    obtain ⟨k0, v0⟩ := p
    simp only [List.map_cons, List.nodup_cons] at hn
    rcases List.mem_cons.mp hm with h | h
    · obtain ⟨h1, h2⟩ := Prod.mk.injEq .. ▸ h
      injection h with h1 h2
      subst h1; subst h2
      simp [alookup]
    · by_cases h0 : k0 = e
      · subst h0
        exact absurd (List.mem_map_of_mem Prod.fst h) hn.1
      · simp only [alookup, if_neg h0]
        exact ih hn.2 h

theorem aerase_eq_of_alookup_none {α : Type} {l : List (Nat × α)} {k : Nat}
    (h : alookup l k = none) : aerase l k = l := by
  induction l with
  | nil => simp [aerase]
  | cons p t ih =>
    obtain ⟨k0, v0⟩ := p
    by_cases h0 : k0 = k
    · subst h0; simp [alookup] at h
    · simp only [alookup, if_neg h0] at h
      simp [aerase, h0, ih h]

theorem sublist_aerase {α : Type} (l : List (Nat × α)) (k : Nat) :
    List.Sublist (aerase l k) l := by
  induction l with
  | nil => simp [aerase]
  | cons p t ih =>
    obtain ⟨k0, v0⟩ := p
    by_cases h0 : k0 = k
    · simp only [aerase, if_pos h0]
      exact ih.cons _
    · simp only [aerase, if_neg h0]
      exact ih.cons₂ _

theorem pairwise_fst_aerase {α : Type} {l : List (Nat × α)} {k : Nat}
    (h : (l.map Prod.fst).Pairwise (· < ·)) :
    ((aerase l k).map Prod.fst).Pairwise (· < ·) :=
  List.Pairwise.sublist (List.Sublist.map Prod.fst (sublist_aerase l k)) h

theorem mem_fst_binsertEmpty {l : List (Nat × List Nat)} {e e' : Nat} :
    e' ∈ (binsertEmpty l e).map Prod.fst ↔ e' = e ∨ e' ∈ l.map Prod.fst := by
  induction l with
  | nil => simp [binsertEmpty]
  | cons p t ih =>
    obtain ⟨e0, ks0⟩ := p
    by_cases h0 : e < e0
    · simp only [binsertEmpty, if_pos h0, List.map_cons, List.mem_cons]
      try tauto
    · simp only [binsertEmpty, if_neg h0, List.map_cons, List.mem_cons, ih]
      try tauto

theorem pairwise_binsertEmpty {l : List (Nat × List Nat)} {e : Nat}
    (hs : (l.map Prod.fst).Pairwise (· < ·)) (h : alookup l e = none) :
    ((binsertEmpty l e).map Prod.fst).Pairwise (· < ·) := by
  induction l with
  | nil => simp [binsertEmpty]
  | cons p t ih =>
    obtain ⟨e0, ks0⟩ := p
    rw [List.map_cons] at hs
    have hs' := List.pairwise_cons.mp hs
    have he0 : e0 ≠ e := by
      intro hh
      subst hh
      simp [alookup] at h
    have ht : alookup t e = none := by
      have := h
      simp only [alookup, if_neg he0] at this
      exact this
    by_cases h0 : e < e0
    · simp only [binsertEmpty, if_pos h0, List.map_cons, List.pairwise_cons]
      refine ⟨?_, ?_⟩
      · intro a ha
        rcases List.mem_cons.mp ha with h1 | h1
        · omega
        · have := hs'.1 a h1
          omega
      · simpa using hs
    · simp only [binsertEmpty, if_neg h0, List.map_cons, List.pairwise_cons]
      refine ⟨?_, ih hs'.2 ht⟩
      intro a ha
      rcases mem_fst_binsertEmpty.mp ha with h1 | h1
      · omega
      · exact hs'.1 a h1

theorem alookup_binsertEmpty_self {l : List (Nat × List Nat)} {e : Nat}
    (h : alookup l e = none) : alookup (binsertEmpty l e) e = some [] := by
  induction l with
  | nil => simp [binsertEmpty, alookup]
  | cons p t ih =>
    obtain ⟨e0, ks0⟩ := p
    have he0 : e0 ≠ e := by
      intro hh
      subst hh
      simp [alookup] at h
    simp only [alookup, if_neg he0] at h
    by_cases h0 : e < e0
    · simp [binsertEmpty, h0, alookup]
    · simp [binsertEmpty, h0, alookup, he0, ih h]

theorem alookup_binsertEmpty_ne {l : List (Nat × List Nat)} {e e' : Nat}
    (h : e' ≠ e) : alookup (binsertEmpty l e) e' = alookup l e' := by
  induction l with
  | nil => simp [binsertEmpty, alookup, Ne.symm h]
  | cons p t ih =>
    obtain ⟨e0, ks0⟩ := p
    by_cases h0 : e < e0
    · simp [binsertEmpty, h0, alookup, Ne.symm h]
    · by_cases h1 : e0 = e'
      · subst h1
        simp [binsertEmpty, h0, alookup]
      · simp [binsertEmpty, h0, alookup, h1, ih]

theorem pairwise_bucketRemove {exps : List (Nat × List Nat)} {e k : Nat}
    (hs : (exps.map Prod.fst).Pairwise (· < ·)) :
    ((bucketRemove exps e k).map Prod.fst).Pairwise (· < ·) := by
  unfold bucketRemove
  match h : alookup exps e with
  | none => exact pairwise_fst_aerase hs
  | some ks =>
    by_cases h1 : ks.length ≤ 1
    · simpa [h1] using pairwise_fst_aerase hs
    · simpa [h1, amodify_map_fst] using hs

theorem alookup_bucketRemove_ne {exps : List (Nat × List Nat)} {e e' k : Nat}
    (h : e' ≠ e) : alookup (bucketRemove exps e k) e' = alookup exps e' := by
  unfold bucketRemove
  match h0 : alookup exps e with
  | none => exact alookup_aerase_ne exps h
  | some ks =>
    by_cases h1 : ks.length ≤ 1
    · simpa [h1] using alookup_aerase_ne exps h
    · simpa [h1] using alookup_amodify_ne exps _ h

theorem alookup_bucketRemove_self {exps : List (Nat × List Nat)} {e k : Nat} :
    alookup (bucketRemove exps e k) e =
      match alookup exps e with
      | none => none
      | some ks => if ks.length ≤ 1 then none else some (ks.filter (· ≠ k)) := by
  unfold bucketRemove
  match h0 : alookup exps e with
  | none => simpa using alookup_aerase_self exps e
  | some ks =>
    by_cases h1 : ks.length ≤ 1
    · simpa [h1] using alookup_aerase_self exps e
    · simpa [h1] using alookup_amodify_self (fun l => l.filter (· ≠ k)) h0

theorem alookup_bucketRemove_self_some {exps : List (Nat × List Nat)} {e k : Nat}
    {ks : List Nat} (h : alookup exps e = some ks) :
    alookup (bucketRemove exps e k) e =
      if ks.length ≤ 1 then none else some (ks.filter (· ≠ k)) := by
  rw [alookup_bucketRemove_self, h]

/-! ## The structural and timer invariant -/

/-- The timer-scheduler invariant: the stored handle is the only outstanding
scheduled callback (and the stored handle and its target are set together). -/
def TimerInv (s : Cache) : Prop :=
  match s.timer, s.timerExpiration with
  | none, none => s.pending = []
  | some id, some te => s.pending = [(id, te)]
  | _, _ => False

/-- The invariant maintained between public calls (with the observing dispose
callback): bucket timestamps strictly ascending, buckets nonempty and
duplicate-free, bucket membership and the expiration map agree on finite
expirations, map keys duplicate-free, every data key is indexed, and the stored
timeout handle is the only outstanding scheduled callback. -/
structure CacheInv (s : Cache) : Prop where
  sortB : (s.expirations.map Prod.fst).Pairwise (· < ·)
  bne : ∀ e ks, bget s.expirations e = some ks → ks ≠ []
  bnodup : ∀ e ks, bget s.expirations e = some ks → ks.Nodup
  bmem : ∀ e ks, bget s.expirations e = some ks → ∀ k ∈ ks,
      alookup s.expirationMap k = some (.fin e)
  emem : ∀ k e, alookup s.expirationMap k = some (.fin e) →
      ∃ ks, bget s.expirations e = some ks ∧ k ∈ ks
  dnd : (s.data.map Prod.fst).Nodup
  emnd : (s.expirationMap.map Prod.fst).Nodup
  dsub : ∀ k, (alookup s.data k).isSome → (alookup s.expirationMap k).isSome
  tinv : TimerInv s

/-- Transport the structural parts of the invariant across an operation that
does not touch `expirations`, `data` or `expirationMap`. -/
theorem CacheInv.mk' {s s' : Cache}
    (hexp : s'.expirations = s.expirations) (hdata : s'.data = s.data)
    (hem : s'.expirationMap = s.expirationMap) (h : CacheInv s)
    (ht : TimerInv s') : CacheInv s' := by
  refine ⟨?_, ?_, ?_, ?_, ?_, ?_, ?_, ?_, ht⟩
  · rw [hexp]; exact h.sortB
  · rw [hexp]; exact h.bne
  · rw [hexp]; exact h.bnodup
  · rw [hexp, hem]; exact h.bmem
  · rw [hexp, hem]; exact h.emem
  · rw [hdata]; exact h.dnd
  · rw [hem]; exact h.emnd
  · rw [hdata, hem]; exact h.dsub

theorem inv_mkCache (maxv : ENum) (ttlv : Option ENum) (u c nu nd : Bool) :
    CacheInv (mkCache maxv ttlv u c nu nd) := by
  refine ⟨?_, ?_, ?_, ?_, ?_, ?_, ?_, ?_, ?_⟩ <;>
    simp [mkCache, bget, alookup, TimerInv]

theorem inv_setTimer {s : Cache} (e : Nat) (h : CacheInv s) : CacheInv (setTimer s e) := by
  have ht := h.tinv
  unfold TimerInv at ht
  unfold setTimer
  by_cases hg : truthyLt s.timerExpiration e
  · simp only [if_pos hg]
    exact h
  · simp only [if_neg hg]
    cases hT : s.timer with
    | none =>
      rw [hT] at ht
      cases hE : s.timerExpiration with
      | none =>
        rw [hE] at ht
        change s.pending = [] at ht
        refine CacheInv.mk' (s := s) rfl rfl rfl h ?_
        change s.pending ++ [(s.nextId, e)] = [(s.nextId, e)]
        simp [ht]
      | some te =>
        rw [hE] at ht
        change False at ht
        exact ht.elim
    | some id =>
      rw [hT] at ht
      cases hE : s.timerExpiration with
      | none =>
        rw [hE] at ht
        change False at ht
        exact ht.elim
      | some te =>
        rw [hE] at ht
        change s.pending = [(id, te)] at ht
        refine CacheInv.mk' (s := s) rfl rfl rfl h ?_
        change s.pending.filter (fun p => p.1 ≠ id) ++ [(s.nextId, e)] = [(s.nextId, e)]
        simp [ht]

theorem inv_cancelTimer {s : Cache} (h : CacheInv s) : CacheInv (cancelTimer s) := by
  have ht := h.tinv
  unfold TimerInv at ht
  unfold cancelTimer
  cases hT : s.timer with
  | none => exact h
  | some id =>
    rw [hT] at ht
    cases hE : s.timerExpiration with
    | none =>
      rw [hE] at ht
      change False at ht
      exact ht.elim
    | some te =>
      rw [hE] at ht
      change s.pending = [(id, te)] at ht
      refine CacheInv.mk' (s := s) rfl rfl rfl h ?_
      change s.pending.filter (fun p => p.1 ≠ id) = []
      simp [ht]

/-! ## detachAll and disposeFold lemmas -/

theorem detachAll_data_alookup (dm : List (Nat × JSVal)) (em : List (Nat × ENum))
    (ks : List Nat) (k : Nat) :
    alookup (detachAll dm em ks).1 k = if k ∈ ks then none else alookup dm k := by
  induction ks generalizing dm em with
  | nil => simp [detachAll]
  | cons k0 ks ih =>
    simp only [detachAll]
    by_cases h0 : k = k0
    · subst h0
      rw [ih]
      by_cases hm : k ∈ ks
      · simp [hm]
      · simp [hm, alookup_aerase_self]
    · rw [ih]
      by_cases hm : k ∈ ks
      · simp [hm, h0]
      · simp [hm, h0, alookup_aerase_ne _ h0]

theorem detachAll_em_alookup (dm : List (Nat × JSVal)) (em : List (Nat × ENum))
    (ks : List Nat) (k : Nat) :
    alookup (detachAll dm em ks).2.1 k = if k ∈ ks then none else alookup em k := by
  induction ks generalizing dm em with
  | nil => simp [detachAll]
  | cons k0 ks ih =>
    simp only [detachAll]
    by_cases h0 : k = k0
    · subst h0
      rw [ih]
      by_cases hm : k ∈ ks
      · simp [hm]
      · simp [hm, alookup_aerase_self]
    · rw [ih]
      by_cases hm : k ∈ ks
      · simp [hm, h0]
      · simp [hm, h0, alookup_aerase_ne _ h0]

theorem detachAll_data_nodup {dm : List (Nat × JSVal)} {em : List (Nat × ENum)}
    (ks : List Nat) (h : (dm.map Prod.fst).Nodup) :
    ((detachAll dm em ks).1.map Prod.fst).Nodup := by
  induction ks generalizing dm em with
  | nil => simpa [detachAll] using h
  | cons k0 ks ih =>
    simp only [detachAll]
    exact ih (nodup_fst_aerase dm k0 h)

theorem detachAll_em_nodup {dm : List (Nat × JSVal)} {em : List (Nat × ENum)}
    (ks : List Nat) (h : (em.map Prod.fst).Nodup) :
    ((detachAll dm em ks).2.1.map Prod.fst).Nodup := by
  induction ks generalizing dm em with
  | nil => simpa [detachAll] using h
  | cons k0 ks ih =>
    simp only [detachAll]
    exact ih (nodup_fst_aerase em k0 h)

theorem detachAll_data_length_le (dm : List (Nat × JSVal)) (em : List (Nat × ENum))
    (ks : List Nat) : (detachAll dm em ks).1.length ≤ dm.length := by
  induction ks generalizing dm em with
  | nil => simp [detachAll]
  | cons k0 ks ih =>
    simp only [detachAll]
    exact le_trans (ih (aerase dm k0) (aerase em k0)) (length_aerase_le dm k0)

theorem disposeFold_logD_fields (r : Reason) (entries : List (Nat × JSVal)) (s : Cache) :
    (disposeFold logD r entries s).expirations = s.expirations ∧
    (disposeFold logD r entries s).data = s.data ∧
    (disposeFold logD r entries s).expirationMap = s.expirationMap ∧
    (disposeFold logD r entries s).timer = s.timer ∧
    (disposeFold logD r entries s).timerExpiration = s.timerExpiration ∧
    (disposeFold logD r entries s).pending = s.pending ∧
    (disposeFold logD r entries s).max = s.max := by
  induction entries generalizing s with
  | nil => simp [disposeFold]
  | cons p t ih =>
    simp only [disposeFold, List.foldl_cons]
    exact ih _

/-- Transport the whole invariant across an operation that changed only
`ttl`-irrelevant bookkeeping (the log, options, ids). -/
theorem CacheInv.transport {s s' : Cache}
    (hexp : s'.expirations = s.expirations) (hdata : s'.data = s.data)
    (hem : s'.expirationMap = s.expirationMap) (htimer : s'.timer = s.timer)
    (hte : s'.timerExpiration = s.timerExpiration) (hpend : s'.pending = s.pending)
    (h : CacheInv s) : CacheInv s' := by
  refine CacheInv.mk' hexp hdata hem h ?_
  unfold TimerInv
  rw [htimer, hte, hpend]
  exact h.tinv

theorem inv_disposeFold_logD {s : Cache} (r : Reason) (entries : List (Nat × JSVal))
    (h : CacheInv s) : CacheInv (disposeFold logD r entries s) := by
  obtain ⟨h1, h2, h3, h4, h5, h6, h7⟩ := disposeFold_logD_fields r entries s
  exact CacheInv.transport h1 h2 h3 h4 h5 h6 h

/-! ## Invariant preservation of the purge engines (with the observing callback) -/

theorem CacheInv.fst_nodup {s : Cache} (h : CacheInv s) :
    (s.expirations.map Prod.fst).Nodup :=
  h.sortB.imp Nat.ne_of_lt

theorem bget_eq (l : List (Nat × List Nat)) (e : Nat) : bget l e = alookup l e := rfl

theorem inv_detach_head {s : Cache} {e : Nat} {ks : List Nat}
    {rest : List (Nat × List Nat)}
    (h : CacheInv s) (hE : s.expirations = (e, ks) :: rest) :
    CacheInv { s with expirations := rest,
                      data := (detachAll s.data s.expirationMap ks).1,
                      expirationMap := (detachAll s.data s.expirationMap ks).2.1 } := by
  have hfstnd := h.fst_nodup
  rw [hE, List.map_cons, List.nodup_cons] at hfstnd
  have hKs : bget s.expirations e = some ks := by rw [hE]; simp [bget, alookup]
  have hRest : alookup rest e = none :=
    alookup_eq_none_of_not_mem_fst hfstnd.1
  have hbgetRest : ∀ e', e' ≠ e → bget rest e' = bget s.expirations e' := by
    intro e' he'
    rw [hE]
    simp [bget, alookup, Ne.symm he']
  have hks_mem : ∀ k ∈ ks, alookup s.expirationMap k = some (.fin e) :=
    h.bmem e ks hKs
  have hne_of_bget : ∀ e' ks', bget rest e' = some ks' → e' ≠ e := by
    intro e' ks' hb hh
    subst hh
    rw [bget_eq, hRest] at hb
    exact Option.noConfusion hb
  have hrest_not_ks : ∀ e' ks', bget rest e' = some ks' → ∀ k' ∈ ks', k' ∉ ks := by
    intro e' ks' hb k' hk' hkks
    have he' := hne_of_bget e' ks' hb
    have hb' : bget s.expirations e' = some ks' := (hbgetRest e' he') ▸ hb
    have h1 := h.bmem e' ks' hb' k' hk'
    have h2 := hks_mem k' hkks
    rw [h1] at h2
    simp [ENum.fin.injEq] at h2
    exact he' h2
  refine ⟨?_, ?_, ?_, ?_, ?_, ?_, ?_, ?_, ?_⟩
  · have hs := h.sortB
    rw [hE, List.map_cons] at hs
    exact (List.pairwise_cons.mp hs).2
  · intro e' ks' hb
    exact h.bne e' ks' ((hbgetRest e' (hne_of_bget e' ks' hb)) ▸ hb)
  · intro e' ks' hb
    exact h.bnodup e' ks' ((hbgetRest e' (hne_of_bget e' ks' hb)) ▸ hb)
  · intro e' ks' hb k' hk'
    have hnot := hrest_not_ks e' ks' hb k' hk'
    have hb' : bget s.expirations e' = some ks' :=
      (hbgetRest e' (hne_of_bget e' ks' hb)) ▸ hb
    show alookup (detachAll s.data s.expirationMap ks).2.1 k' = some (.fin e')
    rw [detachAll_em_alookup, if_neg hnot]
    exact h.bmem e' ks' hb' k' hk'
  · intro k' e' hk'
    have hk2 : alookup (detachAll s.data s.expirationMap ks).2.1 k' =
        some (.fin e') := hk'
    rw [detachAll_em_alookup] at hk2
    by_cases hm : k' ∈ ks
    · rw [if_pos hm] at hk2
      exact Option.noConfusion hk2
    · rw [if_neg hm] at hk2
      obtain ⟨ks', hb, hmem⟩ := h.emem k' e' hk2
      have he' : e' ≠ e := by
        intro hh
        subst hh
        rw [hKs] at hb
        injection hb with hb'
        exact hm (hb' ▸ hmem)
      exact ⟨ks', ((hbgetRest e' he').symm ▸ hb : bget rest e' = some ks'), hmem⟩
  · exact detachAll_data_nodup ks h.dnd
  · exact detachAll_em_nodup ks h.emnd
  · intro k hk
    have hk2 : (alookup (detachAll s.data s.expirationMap ks).1 k).isSome := hk
    rw [detachAll_data_alookup] at hk2
    show (alookup (detachAll s.data s.expirationMap ks).2.1 k).isSome
    rw [detachAll_em_alookup]
    by_cases hm : k ∈ ks
    · rw [if_pos hm] at hk2
      simp at hk2
    · rw [if_neg hm] at hk2
      rw [if_neg hm]
      exact h.dsub k hk2
  · exact h.tinv

theorem inv_splice_head {s : Cache} {e : Nat} {ks : List Nat}
    {rest : List (Nat × List Nat)} {n : Nat}
    (h : CacheInv s) (hE : s.expirations = (e, ks) :: rest)
    (hn : n = 0 ∨ n < ks.length) :
    CacheInv { s with expirations := (e, ks.drop n) :: rest,
                      data := (detachAll s.data s.expirationMap (ks.take n)).1,
                      expirationMap := (detachAll s.data s.expirationMap (ks.take n)).2.1 } := by
  have hfstnd := h.fst_nodup
  rw [hE, List.map_cons, List.nodup_cons] at hfstnd
  have hKs : bget s.expirations e = some ks := by rw [hE]; simp [bget, alookup]
  have hRest : alookup rest e = none :=
    alookup_eq_none_of_not_mem_fst hfstnd.1
  have hbgetRest : ∀ e', e' ≠ e → bget rest e' = bget s.expirations e' := by
    intro e' he'
    rw [hE]
    simp [bget, alookup, Ne.symm he']
  have hks_mem : ∀ k ∈ ks, alookup s.expirationMap k = some (.fin e) :=
    h.bmem e ks hKs
  have hnodupks : ks.Nodup := h.bnodup e ks hKs
  have hsplit : ks.take n ++ ks.drop n = ks := List.take_append_drop n ks
  have hdisj : ∀ k', k' ∈ ks.drop n → k' ∉ ks.take n := by
    intro k' hkd hkt
    have : ¬ (ks.take n ++ ks.drop n).Nodup := by
      rw [List.nodup_append]
      intro ⟨_, _, hd⟩
      exact hd hkt hkd
    rw [hsplit] at this
    exact this hnodupks
  have htake_sub : ∀ k', k' ∈ ks.take n → k' ∈ ks := by
    intro k' hk'
    rw [← hsplit]
    exact List.mem_append_left _ hk'
  have hdrop_sub : ∀ k', k' ∈ ks.drop n → k' ∈ ks := by
    intro k' hk'
    rw [← hsplit]
    exact List.mem_append_right _ hk'
  have hdropne : ks.drop n ≠ [] := by
    rcases hn with hn | hn
    · subst hn
      simpa using h.bne e ks hKs
    · intro hh
      have := List.length_drop n ks ▸ congrArg List.length hh
      simp at this
      omega
  have hne_of_bget : ∀ e' ks', bget rest e' = some ks' → e' ≠ e := by
    intro e' ks' hb hh
    subst hh
    rw [bget_eq, hRest] at hb
    exact Option.noConfusion hb
  have hrest_not_ks : ∀ e' ks', bget rest e' = some ks' → ∀ k' ∈ ks', k' ∉ ks := by
    intro e' ks' hb k' hk' hkks
    have he' := hne_of_bget e' ks' hb
    have hb' : bget s.expirations e' = some ks' := (hbgetRest e' he') ▸ hb
    have h1 := h.bmem e' ks' hb' k' hk'
    have h2 := hks_mem k' hkks
    rw [h1] at h2
    simp [ENum.fin.injEq] at h2
    exact he' h2
  refine ⟨?_, ?_, ?_, ?_, ?_, ?_, ?_, ?_, ?_⟩
  · have hs := h.sortB
    rw [hE] at hs
    simpa using hs
  · intro e' ks' hb
    have hb2 : alookup ((e, ks.drop n) :: rest) e' = some ks' := hb
    by_cases he' : e = e'
    · subst he'
      simp only [alookup, if_pos rfl] at hb2
      injection hb2 with hb3
      rw [← hb3]
      exact hdropne
    · simp only [alookup, if_neg he'] at hb2
      exact h.bne e' ks'
        ((hbgetRest e' (hne_of_bget e' ks' hb2)) ▸ (hb2 : bget rest e' = some ks'))
  · intro e' ks' hb
    have hb2 : alookup ((e, ks.drop n) :: rest) e' = some ks' := hb
    by_cases he' : e = e'
    · subst he'
      simp only [alookup, if_pos rfl] at hb2
      injection hb2 with hb3
      rw [← hb3]
      exact List.Nodup.sublist (List.drop_sublist n ks) hnodupks
    · simp only [alookup, if_neg he'] at hb2
      exact h.bnodup e' ks'
        ((hbgetRest e' (hne_of_bget e' ks' hb2)) ▸ (hb2 : bget rest e' = some ks'))
  · intro e' ks' hb k' hk'
    have hb2 : alookup ((e, ks.drop n) :: rest) e' = some ks' := hb
    show alookup (detachAll s.data s.expirationMap (ks.take n)).2.1 k' = some (.fin e')
    rw [detachAll_em_alookup]
    by_cases he' : e = e'
    · subst he'
      simp only [alookup, if_pos rfl] at hb2
      injection hb2 with hb3
      rw [← hb3] at hk'
      rw [if_neg (hdisj k' hk')]
      exact hks_mem k' (hdrop_sub k' hk')
    · simp only [alookup, if_neg he'] at hb2
      have hnot : k' ∉ ks := hrest_not_ks e' ks' hb2 k' hk'
      rw [if_neg (fun hc => hnot (htake_sub k' hc))]
      exact h.bmem e' ks'
        ((hbgetRest e' (hne_of_bget e' ks' hb2)) ▸ (hb2 : bget rest e' = some ks')) k' hk'
  · intro k' e' hk'
    have hk2 : alookup (detachAll s.data s.expirationMap (ks.take n)).2.1 k' =
        some (.fin e') := hk'
    rw [detachAll_em_alookup] at hk2
    by_cases hm : k' ∈ ks.take n
    · rw [if_pos hm] at hk2
      exact Option.noConfusion hk2
    · rw [if_neg hm] at hk2
      obtain ⟨ks0, hb0, hmem0⟩ := h.emem k' e' hk2
      by_cases he' : e' = e
      · subst he'
        rw [hKs] at hb0
        injection hb0 with hb1
        rw [← hb1] at hmem0
        refine ⟨ks.drop n, ?_, ?_⟩
        · show alookup ((e', ks.drop n) :: rest) e' = some (ks.drop n)
          simp [alookup]
        · rw [← hsplit] at hmem0
          rcases List.mem_append.mp hmem0 with hc | hc
          · exact absurd hc hm
          · exact hc
      · refine ⟨ks0, ?_, hmem0⟩
        show alookup ((e, ks.drop n) :: rest) e' = some ks0
        have hee : e ≠ e' := fun hc => he' hc.symm
        simp only [alookup, if_neg hee]
        rw [← bget_eq, hbgetRest e' he']
        exact hb0
  · exact detachAll_data_nodup _ h.dnd
  · exact detachAll_em_nodup _ h.emnd
  · intro k hk
    have hk2 : (alookup (detachAll s.data s.expirationMap (ks.take n)).1 k).isSome := hk
    rw [detachAll_data_alookup] at hk2
    show (alookup (detachAll s.data s.expirationMap (ks.take n)).2.1 k).isSome
    rw [detachAll_em_alookup]
    by_cases hm : k ∈ ks.take n
    · rw [if_pos hm] at hk2
      simp at hk2
    · rw [if_neg hm] at hk2
      rw [if_neg hm]
      exact h.dsub k hk2
  · exact h.tinv

/-! ## Invariant preservation of setTTL -/

theorem setTimer_fields (s : Cache) (e : Nat) :
    (setTimer s e).expirations = s.expirations ∧ (setTimer s e).data = s.data ∧
    (setTimer s e).expirationMap = s.expirationMap := by
  unfold setTimer
  by_cases hg : truthyLt s.timerExpiration e
  · simp [hg]
  · cases s.timer <;> simp [hg]

theorem timerInv_setTimer {s : Cache} (e : Nat) (ht : TimerInv s) :
    TimerInv (setTimer s e) := by
  unfold TimerInv at ht
  unfold setTimer
  by_cases hg : truthyLt s.timerExpiration e
  · simp only [if_pos hg]
    exact ht
  · simp only [if_neg hg]
    cases hT : s.timer with
    | none =>
      rw [hT] at ht
      cases hE : s.timerExpiration with
      | none =>
        rw [hE] at ht
        change s.pending = [] at ht
        change s.pending ++ [(s.nextId, e)] = [(s.nextId, e)]
        simp [ht]
      | some te =>
        rw [hE] at ht
        change False at ht
        exact ht.elim
    | some id =>
      rw [hT] at ht
      cases hE : s.timerExpiration with
      | none =>
        rw [hE] at ht
        change False at ht
        exact ht.elim
      | some te =>
        rw [hE] at ht
        change s.pending = [(id, te)] at ht
        change s.pending.filter (fun p => p.1 ≠ id) ++ [(s.nextId, e)] = [(s.nextId, e)]
        simp [ht]

/-- The facts that hold after the removal phase of `setTTL`: the key is in no
bucket, other bucket content and lookups agree with the (unchanged) expiration
map, and all the remaining invariant components hold. -/
structure Phase1Facts (s1 : Cache) (k : Nat) : Prop where
  sortB : (s1.expirations.map Prod.fst).Pairwise (· < ·)
  buck : ∀ e' ks', alookup s1.expirations e' = some ks' →
      ks' ≠ [] ∧ ks'.Nodup ∧ ∀ k' ∈ ks', k' ≠ k ∧
        alookup s1.expirationMap k' = some (.fin e')
  back : ∀ k' e', k' ≠ k → alookup s1.expirationMap k' = some (.fin e') →
      ∃ ks', alookup s1.expirations e' = some ks' ∧ k' ∈ ks'
  dnd : (s1.data.map Prod.fst).Nodup
  emnd : (s1.expirationMap.map Prod.fst).Nodup
  dsub : ∀ k', (alookup s1.data k').isSome → (alookup s1.expirationMap k').isSome
  tinv : TimerInv s1

theorem filter_ne_nonempty {ks : List Nat} {k : Nat} (hnd : ks.Nodup) (hk : k ∈ ks)
    (hlen : ¬ ks.length ≤ 1) : ks.filter (· ≠ k) ≠ [] := by
  intro hnil
  rw [List.filter_eq_nil_iff] at hnil
  have hall : ∀ x ∈ ks, x = k := by
    intro x hx
    simpa using hnil x hx
  match ks, hnd, hlen, hall with
  | [], _, hlen2, _ => simp at hlen2
  | [a], _, hlen2, _ => simp at hlen2
  | a :: b :: u, hnd2, _, hall2 =>
    have ha : a = k := hall2 a (by simp)
    have hb2 : b = k := hall2 b (by simp)
    rw [List.nodup_cons] at hnd2
    exact hnd2.1 (by simp [ha, hb2])

theorem eq_singleton_of_len_le_one {ks : List Nat} {k : Nat} (hk : k ∈ ks)
    (hlen : ks.length ≤ 1) : ks = [k] := by
  match ks, hk, hlen with
  | [], hk2, _ => simp at hk2
  | [a], hk2, _ =>
    simp at hk2
    simp [hk2]
  | a :: b :: u, _, hlen2 => simp at hlen2

theorem setTTLremove_facts {s : Cache} (k : Nat) (h : CacheInv s) :
    Phase1Facts (setTTLremove s k) k := by
  unfold setTTLremove
  cases hcur : alookup s.expirationMap k with
  | none =>
    show Phase1Facts s k
    refine ⟨h.sortB, ?_, ?_, h.dnd, h.emnd, h.dsub, h.tinv⟩
    · intro e' ks' hb
      refine ⟨h.bne e' ks' hb, h.bnodup e' ks' hb, ?_⟩
      intro k' hk'
      have hm := h.bmem e' ks' hb k' hk'
      refine ⟨?_, hm⟩
      intro hh
      subst hh
      rw [hcur] at hm
      exact Option.noConfusion hm
    · intro k' e' _ hm
      exact h.emem k' e' hm
  | some cur =>
    cases cur with
    | inf =>
      show Phase1Facts s k
      refine ⟨h.sortB, ?_, ?_, h.dnd, h.emnd, h.dsub, h.tinv⟩
      · intro e' ks' hb
        refine ⟨h.bne e' ks' hb, h.bnodup e' ks' hb, ?_⟩
        intro k' hk'
        have hm := h.bmem e' ks' hb k' hk'
        refine ⟨?_, hm⟩
        intro hh
        subst hh
        rw [hcur] at hm
        simp at hm
      · intro k' e' _ hm
        exact h.emem k' e' hm
    | fin e =>
      show Phase1Facts { s with expirations := bucketRemove s.expirations e k } k
      obtain ⟨ks, hKs, hkmem⟩ := h.emem k e hcur
      have hksnd : ks.Nodup := h.bnodup e ks hKs
      refine ⟨?_, ?_, ?_, h.dnd, h.emnd, h.dsub, h.tinv⟩
      · exact pairwise_bucketRemove h.sortB
      · intro e' ks' hb
        have hb2 : alookup (bucketRemove s.expirations e k) e' = some ks' := hb
        by_cases he' : e' = e
        · subst he'
          rw [alookup_bucketRemove_self_some hKs] at hb2
          by_cases hlen : ks.length ≤ 1
          · rw [if_pos hlen] at hb2
            exact Option.noConfusion hb2
          · rw [if_neg hlen] at hb2
            injection hb2 with hb3
            subst hb3
            refine ⟨filter_ne_nonempty hksnd hkmem hlen, ?_, ?_⟩
            · exact List.Nodup.sublist (List.filter_sublist ks) hksnd
            · intro k' hk'
              rw [List.mem_filter] at hk'
              refine ⟨by simpa using hk'.2, ?_⟩
              exact h.bmem e' ks hKs k' hk'.1
        · rw [alookup_bucketRemove_ne he'] at hb2
          refine ⟨h.bne e' ks' hb2, h.bnodup e' ks' hb2, ?_⟩
          intro k' hk'
          have hm := h.bmem e' ks' hb2 k' hk'
          refine ⟨?_, hm⟩
          intro hh
          subst hh
          rw [hcur] at hm
          simp [ENum.fin.injEq] at hm
          exact he' hm.symm
      · intro k' e' hne hm
        have hm2 : alookup s.expirationMap k' = some (.fin e') := hm
        obtain ⟨ks0, hb0, hm0⟩ := h.emem k' e' hm2
        by_cases he' : e' = e
        · subst he'
          rw [hKs] at hb0
          injection hb0 with hb1
          rw [← hb1] at hm0
          by_cases hlen : ks.length ≤ 1
          · exfalso
            have hsing := eq_singleton_of_len_le_one hkmem hlen
            rw [hsing] at hm0
            simp at hm0
            exact hne hm0
          · refine ⟨ks.filter (· ≠ k), ?_, ?_⟩
            · show alookup (bucketRemove s.expirations e' k) e' =
                some (ks.filter (· ≠ k))
              rw [alookup_bucketRemove_self_some hKs, if_neg hlen]
            · rw [List.mem_filter]
              exact ⟨hm0, by simpa using hne⟩
        · refine ⟨ks0, ?_, hm0⟩
          show alookup (bucketRemove s.expirations e k) e' = some ks0
          rw [alookup_bucketRemove_ne he']
          exact hb0

/-- Generic form of the reinsertion step: appending `k` to the bucket at `E`
restores the invariant, given that the expiration map is `M` updated at `k`
and all other agreement facts hold. -/
theorem inv_insert_append {s3 : Cache} {M : List (Nat × ENum)} {k E : Nat}
    {B : List Nat}
    (hsort : (s3.expirations.map Prod.fst).Pairwise (· < ·))
    (hEM : s3.expirationMap = aset M k (.fin E))
    (hbE : alookup s3.expirations E = some B)
    (hbuck : ∀ e' ks', alookup s3.expirations e' = some ks' → e' ≠ E →
        ks' ≠ [] ∧ ks'.Nodup ∧ ∀ k' ∈ ks', k' ≠ k ∧ alookup M k' = some (.fin e'))
    (hksE : B.Nodup ∧ ∀ k' ∈ B, k' ≠ k ∧ alookup M k' = some (.fin E))
    (hback : ∀ k' e', k' ≠ k → alookup M k' = some (.fin e') →
        ∃ ks', alookup s3.expirations e' = some ks' ∧ k' ∈ ks')
    (hdnd : (s3.data.map Prod.fst).Nodup)
    (hemnd : (M.map Prod.fst).Nodup)
    (hdsub : ∀ k', (alookup s3.data k').isSome →
        k' = k ∨ (alookup M k').isSome)
    (ht : TimerInv s3) :
    CacheInv { s3 with expirations := bappendKey s3.expirations E k } := by
  have hknotE : k ∉ B := fun hc => ((hksE.2 k hc).1) rfl
  have happE : alookup (bappendKey s3.expirations E k) E = some (B ++ [k]) :=
    alookup_amodify_self _ hbE
  have happNe : ∀ e', e' ≠ E →
      alookup (bappendKey s3.expirations E k) e' = alookup s3.expirations e' :=
    fun e' he' => alookup_amodify_ne _ _ he'
  refine ⟨?_, ?_, ?_, ?_, ?_, hdnd, ?_, ?_, ht⟩
  · show ((bappendKey s3.expirations E k).map Prod.fst).Pairwise (· < ·)
    unfold bappendKey
    rw [amodify_map_fst]
    exact hsort
  · intro e' ks' hb
    have hb2 : alookup (bappendKey s3.expirations E k) e' = some ks' := hb
    by_cases he' : e' = E
    · subst he'
      rw [happE] at hb2
      injection hb2 with hb1
      subst hb1
      simp
    · rw [happNe e' he'] at hb2
      exact (hbuck e' ks' hb2 he').1
  · intro e' ks' hb
    have hb2 : alookup (bappendKey s3.expirations E k) e' = some ks' := hb
    by_cases he' : e' = E
    · subst he'
      rw [happE] at hb2
      injection hb2 with hb1
      subst hb1
      rw [List.nodup_append]
      refine ⟨hksE.1, List.nodup_singleton k, ?_⟩
      intro a ha hb3
      simp at hb3
      subst hb3
      exact hknotE ha
    · rw [happNe e' he'] at hb2
      exact (hbuck e' ks' hb2 he').2.1
  · intro e' ks' hb k' hk'
    have hb2 : alookup (bappendKey s3.expirations E k) e' = some ks' := hb
    show alookup s3.expirationMap k' = some (.fin e')
    rw [hEM]
    by_cases he' : e' = E
    · subst he'
      rw [happE] at hb2
      injection hb2 with hb1
      subst hb1
      rcases List.mem_append.mp hk' with hk2 | hk2
      · have hx := hksE.2 k' hk2
        rw [alookup_aset_ne _ _ hx.1]
        exact hx.2
      · simp at hk2
        subst hk2
        rw [alookup_aset_self]
    · rw [happNe e' he'] at hb2
      have hx := (hbuck e' ks' hb2 he').2.2 k' hk'
      rw [alookup_aset_ne _ _ hx.1]
      exact hx.2
  · intro k' e' hm
    have hm2 : alookup (aset M k (.fin E)) k' = some (.fin e') := by
      rw [← hEM]
      exact hm
    show ∃ ks'', alookup (bappendKey s3.expirations E k) e' = some ks'' ∧ k' ∈ ks''
    by_cases hk : k' = k
    · subst hk
      rw [alookup_aset_self] at hm2
      injection hm2 with hm3
      have hEe : E = e' := by injection hm3
      subst hEe
      exact ⟨B ++ [k'], happE, by simp⟩
    · rw [alookup_aset_ne _ _ hk] at hm2
      obtain ⟨ks', hb', hmem'⟩ := hback k' e' hk hm2
      by_cases he' : e' = E
      · subst he'
        rw [hbE] at hb'
        injection hb' with hb1
        subst hb1
        exact ⟨B ++ [k], happE, List.mem_append_left _ hmem'⟩
      · exact ⟨ks', (happNe e' he').symm ▸ hb', hmem'⟩
  · show ((s3.expirationMap).map Prod.fst).Nodup
    rw [hEM]
    exact nodup_fst_aset k _ hemnd
  · intro k' hd
    have hd2 : (alookup s3.data k').isSome := hd
    show (alookup s3.expirationMap k').isSome
    rw [hEM]
    by_cases hkk : k' = k
    · subst hkk
      rw [alookup_aset_self]
      rfl
    · rw [alookup_aset_ne _ _ hkk]
      rcases hdsub k' hd2 with hk | hk
      · exact absurd hk hkk
      · exact hk

theorem inv_setTTLinsert {s1 : Cache} {k : Nat} (now : Nat) (ttl : Option ENum)
    (hf : Phase1Facts s1 k) : CacheInv (setTTLinsert s1 now k ttl) := by
  have hinf : CacheInv { s1 with expirationMap := aset s1.expirationMap k .inf } := by
    refine ⟨hf.sortB, ?_, ?_, ?_, ?_, hf.dnd, ?_, ?_, hf.tinv⟩
    · intro e' ks' hb
      exact (hf.buck e' ks' hb).1
    · intro e' ks' hb
      exact (hf.buck e' ks' hb).2.1
    · intro e' ks' hb k' hk'
      obtain ⟨hne, hm⟩ := (hf.buck e' ks' hb).2.2 k' hk'
      show alookup (aset s1.expirationMap k ENum.inf) k' = some (.fin e')
      rw [alookup_aset_ne _ _ hne]
      exact hm
    · intro k' e' hm
      have hm2 : alookup (aset s1.expirationMap k ENum.inf) k' = some (.fin e') := hm
      by_cases hk : k' = k
      · subst hk
        rw [alookup_aset_self] at hm2
        exact absurd hm2 (by simp)
      · rw [alookup_aset_ne _ _ hk] at hm2
        exact hf.back k' e' hk hm2
    · show ((aset s1.expirationMap k ENum.inf).map Prod.fst).Nodup
      exact nodup_fst_aset k _ hf.emnd
    · intro k' hd
      have hd2 : (alookup s1.data k').isSome := hd
      show (alookup (aset s1.expirationMap k ENum.inf) k').isSome
      by_cases hk : k' = k
      · subst hk
        rw [alookup_aset_self]
        rfl
      · rw [alookup_aset_ne _ _ hk]
        exact hf.dsub k' hd2
  unfold setTTLinsert
  cases ttl with
  | none => exact hinf
  | some t =>
    cases t with
    | inf => exact hinf
    | fin n =>
      dsimp only
      by_cases hn : n = 0
      · rw [if_pos hn]
        exact hinf
      · rw [if_neg hn]
        by_cases hbB : (bget s1.expirations (now + n)).isNone = true
        · rw [if_pos hbB]
          have hnone : alookup s1.expirations (now + n) = none :=
            Option.isNone_iff_eq_none.mp hbB
          have hfields := setTimer_fields
            { s1 with expirationMap := aset s1.expirationMap k (.fin (now + n)),
                      expirations := binsertEmpty s1.expirations (now + n) } (now + n)
          refine inv_insert_append (M := s1.expirationMap) (B := [])
            ?_ ?_ ?_ ?_ ?_ ?_ ?_ hf.emnd ?_ ?_
          · rw [hfields.1]
            exact pairwise_binsertEmpty hf.sortB hnone
          · rw [hfields.2.2]
          · rw [hfields.1]
            exact alookup_binsertEmpty_self hnone
          · intro e' ks' hb he'
            rw [hfields.1, alookup_binsertEmpty_ne he'] at hb
            exact hf.buck e' ks' hb
          · exact ⟨List.nodup_nil, fun k' hk' => absurd hk' (List.not_mem_nil k')⟩
          · intro k' e' hk hm
            obtain ⟨ks', hb', hm'⟩ := hf.back k' e' hk hm
            have he' : e' ≠ now + n := by
              intro hh
              subst hh
              rw [hnone] at hb'
              exact Option.noConfusion hb'
            refine ⟨ks', ?_, hm'⟩
            rw [hfields.1, alookup_binsertEmpty_ne he']
            exact hb'
          · rw [hfields.2.1]
            exact hf.dnd
          · intro k' hd
            rw [hfields.2.1] at hd
            exact Or.inr (hf.dsub k' hd)
          · exact timerInv_setTimer _ hf.tinv
        · rw [if_neg hbB]
          have hsome : (alookup s1.expirations (now + n)).isSome := by
            rcases ho : alookup s1.expirations (now + n) with _ | ks
            · rw [show bget s1.expirations (now + n) = alookup s1.expirations (now + n)
                from rfl, ho] at hbB
              simp at hbB
            · rfl
          obtain ⟨B, hksE⟩ := Option.isSome_iff_exists.mp hsome
          refine inv_insert_append (M := s1.expirationMap) (B := B)
            hf.sortB rfl hksE ?_ ?_ ?_ hf.dnd hf.emnd ?_ hf.tinv
          · intro e' ks' hb _
            exact hf.buck e' ks' hb
          · have := hf.buck (now + n) B hksE
            exact ⟨this.2.1, this.2.2⟩
          · intro k' e' hk hm
            exact hf.back k' e' hk hm
          · intro k' hd
            exact Or.inr (hf.dsub k' hd)

theorem inv_setTTL {s : Cache} (now k : Nat) (ttl : Option ENum) (h : CacheInv s) :
    CacheInv (setTTL s now k ttl) :=
  inv_setTTLinsert now ttl (setTTLremove_facts k h)

theorem inv_set_log {s : Cache} (l : List (JSVal × Nat × Reason)) (h : CacheInv s) :
    CacheInv { s with log := l } :=
  ⟨h.sortB, h.bne, h.bnodup, h.bmem, h.emem, h.dnd, h.emnd, h.dsub, h.tinv⟩

theorem inv_deleteKey {s : Cache} (k : Nat) (h : CacheInv s) :
    CacheInv (deleteKey s k).1 := by
  unfold deleteKey
  cases hcur : alookup s.expirationMap k with
  | none => exact h
  | some current =>
    cases current with
    | inf =>
      dsimp only
      have hs2 : CacheInv { s with
          data := aerase s.data k,
          expirationMap := aerase s.expirationMap k } := by
        refine ⟨h.sortB, h.bne, h.bnodup, ?_, ?_, nodup_fst_aerase _ k h.dnd,
          nodup_fst_aerase _ k h.emnd, ?_, h.tinv⟩
        · intro e' ks' hb k' hk'
          have hm := h.bmem e' ks' hb k' hk'
          have hne : k' ≠ k := by
            intro hh
            subst hh
            rw [hcur] at hm
            simp at hm
          show alookup (aerase s.expirationMap k) k' = some (.fin e')
          rw [alookup_aerase_ne _ hne]
          exact hm
        · intro k' e' hm
          have hm2 : alookup (aerase s.expirationMap k) k' = some (.fin e') := hm
          by_cases hkk : k' = k
          · subst hkk
            rw [alookup_aerase_self] at hm2
            exact Option.noConfusion hm2
          · rw [alookup_aerase_ne _ hkk] at hm2
            exact h.emem k' e' hm2
        · intro k' hd
          have hd2 : (alookup (aerase s.data k) k').isSome := hd
          by_cases hkk : k' = k
          · subst hkk
            rw [alookup_aerase_self] at hd2
            simp at hd2
          · rw [alookup_aerase_ne _ hkk] at hd2
            show (alookup (aerase s.expirationMap k) k').isSome
            rw [alookup_aerase_ne _ hkk]
            exact h.dsub k' hd2
      by_cases hz : (aerase s.data k).length = 0
      · rw [if_pos hz]
        exact inv_cancelTimer (inv_set_log _ hs2)
      · rw [if_neg hz]
        exact inv_set_log _ hs2
    | fin e =>
      dsimp only
      have hfp : Phase1Facts { s with expirations := bucketRemove s.expirations e k } k := by
        have h2 := setTTLremove_facts k h
        unfold setTTLremove at h2
        rw [hcur] at h2
        exact h2
      have hs2 : CacheInv { s with
          data := aerase s.data k,
          expirationMap := aerase s.expirationMap k,
          expirations := bucketRemove s.expirations e k } := by
        refine ⟨hfp.sortB, ?_, ?_, ?_, ?_, nodup_fst_aerase _ k h.dnd,
          nodup_fst_aerase _ k h.emnd, ?_, h.tinv⟩
        · intro e' ks' hb
          exact (hfp.buck e' ks' hb).1
        · intro e' ks' hb
          exact (hfp.buck e' ks' hb).2.1
        · intro e' ks' hb k' hk'
          obtain ⟨hne, hm⟩ := (hfp.buck e' ks' hb).2.2 k' hk'
          show alookup (aerase s.expirationMap k) k' = some (.fin e')
          rw [alookup_aerase_ne _ hne]
          exact hm
        · intro k' e' hm
          have hm2 : alookup (aerase s.expirationMap k) k' = some (.fin e') := hm
          by_cases hkk : k' = k
          · subst hkk
            rw [alookup_aerase_self] at hm2
            exact Option.noConfusion hm2
          · rw [alookup_aerase_ne _ hkk] at hm2
            exact hfp.back k' e' hkk hm2
        · intro k' hd
          have hd2 : (alookup (aerase s.data k) k').isSome := hd
          by_cases hkk : k' = k
          · subst hkk
            rw [alookup_aerase_self] at hd2
            simp at hd2
          · rw [alookup_aerase_ne _ hkk] at hd2
            show (alookup (aerase s.expirationMap k) k').isSome
            rw [alookup_aerase_ne _ hkk]
            exact h.dsub k' hd2
      by_cases hz : (aerase s.data k).length = 0
      · rw [if_pos hz]
        exact inv_cancelTimer (inv_set_log _ hs2)
      · rw [if_neg hz]
        exact inv_set_log _ hs2

theorem inv_psAux (now : Nat) : ∀ (f : Nat) {s : Cache}, CacheInv s →
    CacheInv (psAux logD now f s) := by
  intro f
  induction f with
  | zero =>
    intro s h
    exact h
  | succ f ih =>
    intro s h
    simp only [psAux]
    split
    · split
      · exact inv_cancelTimer h
      · exact h
    · next e ks rest heq =>
      split
      · exact h
      · apply ih
        apply inv_disposeFold_logD
        exact inv_detach_head h heq

theorem inv_purgeStale {s : Cache} (now : Nat) (h : CacheInv s) :
    CacheInv (purgeStale s now) :=
  inv_psAux now _ h

theorem inv_ptcAux : ∀ (f : Nat) {s : Cache}, CacheInv s →
    CacheInv (ptcAux logD f s) := by
  intro f
  induction f with
  | zero =>
    intro s h
    exact h
  | succ f ih =>
    intro s h
    simp only [ptcAux]
    split
    · exact h
    · next e ks rest heq =>
      split
      · apply ih
        apply inv_disposeFold_logD
        exact inv_detach_head h heq
      · next hw =>
        apply inv_disposeFold_logD
        have hn : spliceCount s = 0 ∨ spliceCount s < ks.length := by
          unfold evictWholeBucket at hw
          unfold spliceCount
          cases hM : s.max with
          | inf => exact Or.inl rfl
          | fin m =>
            rw [hM] at hw
            simp only [decide_eq_true_eq] at hw
            dsimp only
            omega
        exact inv_splice_head h heq hn

theorem inv_purgeToCapacity {s : Cache} (h : CacheInv s) :
    CacheInv (purgeToCapacity s) :=
  inv_ptcAux _ h

theorem inv_purgeLoopF : ∀ (f : Nat) {s s' : Cache}, purgeLoopF f s = some s' →
    CacheInv s → CacheInv s' := by
  intro f
  induction f with
  | zero =>
    intro s s' hp h
    unfold purgeLoopF at hp
    split at hp
    · exact Option.noConfusion hp
    · injection hp with hp1
      exact hp1 ▸ h
  | succ f ih =>
    intro s s' hp h
    unfold purgeLoopF at hp
    split at hp
    · exact ih hp (inv_purgeToCapacity h)
    · injection hp with hp1
      exact hp1 ▸ h

theorem inv_data_aset {s : Cache} {k : Nat} (v : JSVal) (h : CacheInv s)
    (hk : (alookup s.expirationMap k).isSome) :
    CacheInv { s with data := aset s.data k v } := by
  refine ⟨h.sortB, h.bne, h.bnodup, h.bmem, h.emem, nodup_fst_aset k v h.dnd,
    h.emnd, ?_, h.tinv⟩
  intro k' hd
  have hd2 : (alookup (aset s.data k v) k').isSome := hd
  by_cases hkk : k' = k
  · subst hkk
    exact hk
  · rw [alookup_aset_ne _ _ hkk] at hd2
    exact h.dsub k' hd2

theorem setTTLinsert_em_has (s1 : Cache) (now k : Nat) (ttl : Option ENum) :
    (alookup (setTTLinsert s1 now k ttl).expirationMap k).isSome := by
  unfold setTTLinsert
  cases ttl with
  | none =>
    show (alookup (aset s1.expirationMap k ENum.inf) k).isSome
    rw [alookup_aset_self]
    rfl
  | some t =>
    cases t with
    | inf =>
      show (alookup (aset s1.expirationMap k ENum.inf) k).isSome
      rw [alookup_aset_self]
      rfl
    | fin n =>
      dsimp only
      by_cases hn : n = 0
      · rw [if_pos hn]
        show (alookup (aset s1.expirationMap k ENum.inf) k).isSome
        rw [alookup_aset_self]
        rfl
      · rw [if_neg hn]
        by_cases hbB : (bget s1.expirations (now + n)).isNone = true
        · rw [if_pos hbB]
          have h1 := (setTimer_fields { s1 with
              expirationMap := aset s1.expirationMap k (.fin (now + n)),
              expirations := binsertEmpty s1.expirations (now + n) } (now + n)).2.2
          show (alookup (setTimer { s1 with
              expirationMap := aset s1.expirationMap k (.fin (now + n)),
              expirations := binsertEmpty s1.expirations (now + n) }
              (now + n)).expirationMap k).isSome
          rw [h1]
          show (alookup (aset s1.expirationMap k (.fin (now + n))) k).isSome
          rw [alookup_aset_self]
          rfl
        · rw [if_neg hbB]
          show (alookup (aset s1.expirationMap k (.fin (now + n))) k).isSome
          rw [alookup_aset_self]
          rfl

theorem setTTL_em_has (s : Cache) (now k : Nat) (ttl : Option ENum) :
    (alookup (setTTL s now k ttl).expirationMap k).isSome := by
  unfold setTTL
  exact setTTLinsert_em_has _ now k ttl

theorem inv_setOp_finish {s1 s' : Cache} {f : Nat}
    (hp : (match purgeLoopF f s1 with
           | some s2 => SetResult.ok s2
           | none => SetResult.hang) = .ok s') (h1 : CacheInv s1) : CacheInv s' := by
  split at hp
  · next heq =>
    injection hp with hp1
    subst hp1
    exact inv_purgeLoopF _ heq h1
  · exact SetResult.noConfusion hp

theorem inv_setOp {s s' : Cache} {now k : Nat} {v : JSVal} {tO : Option (Option ENum)}
    {nuO ndO : Option Bool} (hp : setOp s now k v tO nuO ndO = .ok s')
    (h : CacheInv s) : CacheInv s' := by
  unfold setOp at hp
  dsimp only at hp
  generalize hT : (match tO with | some t => t | none => s.ttl) = tv at hp
  by_cases hval : isPosIntOrInf tv = false
  · rw [if_pos hval] at hp
    exact SetResult.noConfusion hp
  · rw [if_neg hval] at hp
    by_cases hk : (alookup s.expirationMap k).isSome = true
    · rw [if_pos hk] at hp
      by_cases hnu : nuO.getD s.noUpdateTTL = false
      · rw [if_pos hnu] at hp
        have hsaInv : CacheInv (setTTL s now k tv) := inv_setTTL _ _ _ h
        have hsaEm := setTTL_em_has s now k tv
        by_cases hov : flatGet (setTTL s now k tv).data k ≠ none ∧
            flatGet (setTTL s now k tv).data k ≠ v
        · rw [if_pos hov] at hp
          by_cases hnd : ndO.getD s.noDisposeOnSet = false
          · rw [if_pos hnd] at hp
            exact inv_setOp_finish hp (inv_set_log _ (inv_data_aset v hsaInv hsaEm))
          · rw [if_neg hnd] at hp
            exact inv_setOp_finish hp (inv_data_aset v hsaInv hsaEm)
        · rw [if_neg hov] at hp
          exact inv_setOp_finish hp hsaInv
      · rw [if_neg hnu] at hp
        by_cases hov : flatGet s.data k ≠ none ∧ flatGet s.data k ≠ v
        · rw [if_pos hov] at hp
          by_cases hnd : ndO.getD s.noDisposeOnSet = false
          · rw [if_pos hnd] at hp
            exact inv_setOp_finish hp (inv_set_log _ (inv_data_aset v h (by rw [hk])))
          · rw [if_neg hnd] at hp
            exact inv_setOp_finish hp (inv_data_aset v h (by rw [hk]))
        · rw [if_neg hov] at hp
          exact inv_setOp_finish hp h
    · rw [if_neg hk] at hp
      have hsaInv : CacheInv (setTTL s now k tv) := inv_setTTL _ _ _ h
      have hsaEm := setTTL_em_has s now k tv
      exact inv_setOp_finish hp (inv_data_aset v hsaInv hsaEm)

theorem inv_getOp {s : Cache} (now k : Nat) (uO : Option Bool)
    (tO : Option (Option ENum)) (cO : Option Bool) (h : CacheInv s) :
    CacheInv (getOp s now k uO tO cO).2 := by
  unfold getOp
  dsimp only
  by_cases hc : cO.getD s.checkAgeOnGet = true ∧ getRemainingTTL s now k = .fin 0
  · rw [if_pos hc]
    exact inv_deleteKey k h
  · rw [if_neg hc]
    by_cases hu : uO.getD s.updateAgeOnGet = true
    · rw [if_pos hu]
      exact inv_setTTL _ _ _ h
    · rw [if_neg hu]
      exact h

theorem cancelTimer_fields (s : Cache) :
    (cancelTimer s).expirations = s.expirations ∧ (cancelTimer s).data = s.data ∧
    (cancelTimer s).expirationMap = s.expirationMap := by
  unfold cancelTimer
  cases s.timer <;> simp

theorem cancelTimer_clears {s : Cache} (ht : TimerInv s) :
    (cancelTimer s).timer = none ∧ (cancelTimer s).timerExpiration = none ∧
    (cancelTimer s).pending = [] := by
  unfold TimerInv at ht
  unfold cancelTimer
  cases hT : s.timer with
  | none =>
    rw [hT] at ht
    cases hE : s.timerExpiration with
    | none =>
      rw [hE] at ht
      change s.pending = [] at ht
      exact ⟨hT, rfl, ht⟩
    | some te =>
      rw [hE] at ht
      change False at ht
      exact ht.elim
  | some id =>
    rw [hT] at ht
    cases hE : s.timerExpiration with
    | none =>
      rw [hE] at ht
      change False at ht
      exact ht.elim
    | some te =>
      rw [hE] at ht
      change s.pending = [(id, te)] at ht
      refine ⟨rfl, rfl, ?_⟩
      show s.pending.filter (fun p => p.1 ≠ id) = []
      simp [ht]

theorem timerInv_of_eq {s s' : Cache} (h1 : s'.timer = s.timer)
    (h2 : s'.timerExpiration = s.timerExpiration) (h3 : s'.pending = s.pending)
    (t : TimerInv s) : TimerInv s' := by
  unfold TimerInv at t ⊢
  rw [h1, h2, h3]
  exact t

theorem inv_clear {s : Cache} (h : CacheInv s) : CacheInv (clear s) := by
  unfold clear
  dsimp only
  have hcf := cancelTimer_fields { s with data := [], expirationMap := [] }
  have htc := cancelTimer_clears
    (s := { s with data := [], expirationMap := [] }) h.tinv
  refine ⟨?_, ?_, ?_, ?_, ?_, ?_, ?_, ?_, ?_⟩
  · show (([] : List (Nat × List Nat)).map Prod.fst).Pairwise (· < ·)
    simp
  · intro e' ks' hb
    have hb2 : alookup ([] : List (Nat × List Nat)) e' = some ks' := hb
    simp [alookup] at hb2
  · intro e' ks' hb
    have hb2 : alookup ([] : List (Nat × List Nat)) e' = some ks' := hb
    simp [alookup] at hb2
  · intro e' ks' hb
    have hb2 : alookup ([] : List (Nat × List Nat)) e' = some ks' := hb
    simp [alookup] at hb2
  · intro k' e' hm
    have hm2 : (alookup
        (cancelTimer { s with data := [], expirationMap := [] }).expirationMap k') =
        some (.fin e') := hm
    rw [hcf.2.2] at hm2
    have hm3 : alookup ([] : List (Nat × ENum)) k' = some (.fin e') := hm2
    simp [alookup] at hm3
  · show ((cancelTimer { s with data := [], expirationMap := [] }).data.map
        Prod.fst).Nodup
    rw [hcf.2.1]
    simp
  · show ((cancelTimer { s with data := [], expirationMap := [] }).expirationMap.map
        Prod.fst).Nodup
    rw [hcf.2.2]
    simp
  · intro k' hd
    have hd2 : (alookup
        (cancelTimer { s with data := [], expirationMap := [] }).data k').isSome := hd
    rw [hcf.2.1] at hd2
    have hd3 : (alookup ([] : List (Nat × JSVal)) k').isSome := hd2
    simp [alookup] at hd3
  · have htInv : TimerInv (cancelTimer { s with data := [], expirationMap := [] }) := by
      unfold TimerInv
      rw [htc.1, htc.2.1]
      exact htc.2.2
    exact timerInv_of_eq
      (s := cancelTimer { s with data := [], expirationMap := [] }) rfl rfl rfl htInv

theorem inv_timerFire {s : Cache} (now fid : Nat) {t : Nat}
    (hmem : (fid, t) ∈ s.pending) (h : CacheInv s) :
    CacheInv (timerFire s now fid) := by
  unfold timerFire
  dsimp only
  have h1 : CacheInv { s with pending := s.pending.filter (fun p => p.1 ≠ fid),
                              timer := none, timerExpiration := none } := by
    refine CacheInv.mk' (s := s) rfl rfl rfl h ?_
    have ht := h.tinv
    unfold TimerInv at ht ⊢
    cases hT : s.timer with
    | none =>
      rw [hT] at ht
      cases hE : s.timerExpiration with
      | none =>
        rw [hE] at ht
        change s.pending = [] at ht
        show s.pending.filter (fun p => p.1 ≠ fid) = []
        simp [ht]
      | some te =>
        rw [hE] at ht
        change False at ht
        exact ht.elim
    | some id =>
      rw [hT] at ht
      cases hE : s.timerExpiration with
      | none =>
        rw [hE] at ht
        change False at ht
        exact ht.elim
      | some te =>
        rw [hE] at ht
        change s.pending = [(id, te)] at ht
        show s.pending.filter (fun p => p.1 ≠ fid) = []
        rw [ht] at hmem ⊢
        simp at hmem
        simp [hmem.1]
  have h2 := inv_purgeStale now h1
  split
  · exact h2
  · exact inv_setTimer _ h2

/-- Every reachable state satisfies the invariant. -/
theorem reach_inv {s : Cache} (h : Reachable s) : CacheInv s := by
  induction h with
  | init maxv ttlv u c nu nd _ _ => exact inv_mkCache maxv ttlv u c nu nd
  | step_set now k v tO nuO ndO _ hp ih => exact inv_setOp hp ih
  | step_get now k uO tO cO _ ih => exact inv_getOp now k uO tO cO ih
  | step_setTTL now k t _ ih => exact inv_setTTL now k t ih
  | step_delete k _ ih => exact inv_deleteKey k ih
  | step_clear _ ih => exact inv_clear ih
  | step_purgeStale now _ ih => exact inv_purgeStale now ih
  | step_purgeToCapacity _ ih => exact inv_purgeToCapacity ih
  | step_cancelTimer _ ih => exact inv_cancelTimer ih
  | step_fire now fid t _ hmem ih => exact inv_timerFire now fid hmem ih

/-! ## Helper facts for the claim theorems -/

theorem cancelTimer_log (s : Cache) : (cancelTimer s).log = s.log := by
  unfold cancelTimer
  cases s.timer <;> simp

theorem setTimer_log (s : Cache) (e : Nat) : (setTimer s e).log = s.log := by
  unfold setTimer
  by_cases hg : truthyLt s.timerExpiration e
  · simp [hg]
  · cases s.timer <;> simp [hg]

theorem setTTLremove_data_log (s : Cache) (k : Nat) :
    (setTTLremove s k).data = s.data ∧ (setTTLremove s k).log = s.log := by
  unfold setTTLremove
  cases alookup s.expirationMap k with
  | none => exact ⟨rfl, rfl⟩
  | some cur => cases cur <;> exact ⟨rfl, rfl⟩

theorem setTTLinsert_data_log (s1 : Cache) (now k : Nat) (t : Option ENum) :
    (setTTLinsert s1 now k t).data = s1.data ∧ (setTTLinsert s1 now k t).log = s1.log := by
  unfold setTTLinsert
  cases t with
  | none => exact ⟨rfl, rfl⟩
  | some t0 =>
    cases t0 with
    | inf => exact ⟨rfl, rfl⟩
    | fin n =>
      dsimp only
      by_cases hn : n = 0
      · rw [if_pos hn]
        exact ⟨rfl, rfl⟩
      · rw [if_neg hn]
        by_cases hb : (bget s1.expirations (now + n)).isNone = true
        · rw [if_pos hb]
          refine ⟨?_, ?_⟩
          · show (setTimer { s1 with
                expirationMap := aset s1.expirationMap k (.fin (now + n)),
                expirations := binsertEmpty s1.expirations (now + n) }
                (now + n)).data = s1.data
            rw [(setTimer_fields _ _).2.1]
          · show (setTimer { s1 with
                expirationMap := aset s1.expirationMap k (.fin (now + n)),
                expirations := binsertEmpty s1.expirations (now + n) }
                (now + n)).log = s1.log
            rw [setTimer_log]
        · rw [if_neg hb]
          exact ⟨rfl, rfl⟩

theorem setTTL_data_log (s : Cache) (now k : Nat) (t : Option ENum) :
    (setTTL s now k t).data = s.data ∧ (setTTL s now k t).log = s.log := by
  unfold setTTL
  obtain ⟨h1, h2⟩ := setTTLremove_data_log s k
  obtain ⟨h3, h4⟩ := setTTLinsert_data_log (setTTLremove s k) now k t
  exact ⟨h3.trans h1, h4.trans h2⟩

/-- Elements of a bucket appear in the concatenated bucket walk. -/
theorem mem_foldr_buckets {l : List (Nat × List Nat)} {e k : Nat} {ks : List Nat}
    (hm : (e, ks) ∈ l) (hk : k ∈ ks) : k ∈ l.foldr (fun b acc => b.2 ++ acc) [] := by
  induction l with
  | nil => simp at hm
  | cons b t ih =>
    simp only [List.foldr_cons, List.mem_append]
    rcases List.mem_cons.mp hm with h1 | h1
    · subst h1
      exact Or.inl hk
    · exact Or.inr (ih h1)

/-- The state a normal `set` call returns (used to chain concrete scenarios). -/
def okOr (r : SetResult) (d : Cache) : Cache :=
  match r with
  | .ok s => s
  | _ => d

/-! ## C1: capacity eviction with max = 1 -/

def c1s0 : Cache := mkCache (.fin 1) none false false false false

def c1sA : Cache := okOr (setOp c1s0 0 1 (some 10) (some (some (.fin 100))) none none) c1s0

def c1sB : Cache := okOr (setOp c1sA 0 2 (some 20) (some (some (.fin 50))) none none) c1sA

/-- C1 counterexample: on a `max = 1` cache holding only key 1 (ttl 100),
`set(2, 20, {ttl: 50})` does NOT evict key 1: no dispose is ever invoked with
key 1, and the returned cache does not contain key 2. -/
theorem C1_counterexample :
    setOp c1s0 0 1 (some 10) (some (some (.fin 100))) none none = .ok c1sA ∧
    setOp c1sA 0 2 (some 20) (some (some (.fin 50))) none none = .ok c1sB ∧
    c1sB.log.filter (fun ev => ev.2.1 = 1) = [] ∧
    hasKey c1sB 2 = false := by
  exact ⟨by decide, by decide, by decide, by decide⟩

/-- C1: amended: on a `max = 1` cache holding only key 1 (set at time 0 with
ttl 100), `set(2, 20, {ttl: 50})` runs capacity eviction that removes the
soonest-expiring entry, which is the just-inserted key 2 itself: dispose is
invoked exactly once, with reason `evict` and key 2, and when `set` returns the
cache contains only key 1. -/
theorem C1_eviction_removes_new_key :
    setOp c1s0 0 1 (some 10) (some (some (.fin 100))) none none = .ok c1sA ∧
    setOp c1sA 0 2 (some 20) (some (some (.fin 50))) none none = .ok c1sB ∧
    c1sB.log = [(some 20, 2, .evict)] ∧
    c1sB.data = [(1, some 10)] ∧
    keysList c1sB = [1] := by
  exact ⟨by decide, by decide, by decide, by decide, by decide⟩

/-! ## C2: iteration must yield every live key -/

def c2s0 : Cache := mkCache .inf (some .inf) false false false false

def c2s1 : Cache := okOr (setOp c2s0 0 1 (some 42) none none none) c2s0

/-- C2: evidence of the code bug: in a reachable state holding the live
never-expiring key 1, `keys()`, `values()` and `entries()` are all empty — the
bucket walk never visits a ttl-Infinity entry because `setTTL` records only the
`expirationMap` sentinel for it and inserts it in no `expirations` bucket. -/
theorem C2_live_key_never_iterated :
    setOp c2s0 0 1 (some 42) none none none = .ok c2s1 ∧
    Reachable c2s1 ∧
    hasKey c2s1 1 = true ∧
    keysList c2s1 = [] ∧
    entriesList c2s1 = [] ∧
    valuesList c2s1 = [] := by
  refine ⟨by decide, ?_, by decide, by decide, by decide, by decide⟩
  exact Reachable.step_set 0 1 (some 42) none none none
    (Reachable.init .inf (some .inf) false false false false (by decide) (by decide))
    (by decide)

/-! ## C3: termination of the capacity-eviction loop -/

def c3s0 : Cache := mkCache (.fin 1) (some .inf) false false false false

def c3sA : Cache := okOr (setOp c3s0 0 1 (some 1) none none none) c3s0

/-- The state `set` builds just before its `while (size > max)` loop when key 2
is inserted into `c3sA`. -/
def c3mid : Cache :=
  { c3sA with data := aset c3sA.data 2 (some 2),
              expirationMap := aset c3sA.expirationMap 2 .inf }

/-- C3: evidence of the code bug: from the reachable state `c3sA` (a `max = 1`
cache holding one ttl-Infinity entry), `set(2, 2)` with default ttl Infinity
never returns: the cache then holds 2 > 1 entries, `purgeToCapacity` finds no
`expirations` bucket to evict and leaves the state unchanged, so the
`while (this.size > this.max)` loop never terminates (`purgeLoopF` finds no
fixpoint under any fuel). -/
theorem C3_capacity_loop_diverges :
    setOp c3s0 0 1 (some 1) none none none = .ok c3sA ∧
    Reachable c3sA ∧
    setOp c3sA 0 2 (some 2) none none none = .hang ∧
    c3mid.max = .fin 1 ∧
    c3mid.data.length = 2 ∧
    alookup c3mid.expirationMap 1 = some .inf ∧
    alookup c3mid.expirationMap 2 = some .inf ∧
    ∀ f, purgeLoopF f c3mid = none := by
  refine ⟨by decide, ?_, by decide, by decide, by decide, by decide, by decide, ?_⟩
  · exact Reachable.step_set 0 1 (some 1) none none none
      (Reachable.init (.fin 1) (some .inf) false false false false (by decide) (by decide))
      (by decide)
  · intro f
    induction f with
    | zero => decide
    | succ f ih =>
      show (if sizeGtMax c3mid then purgeLoopF f (purgeToCapacity c3mid)
            else some c3mid) = none
      have hg : sizeGtMax c3mid = true := by decide
      have hp : purgeToCapacity c3mid = c3mid := by decide
      rw [hg, hp, ih]
      simp

/-! ## C4: the three-structure membership invariant -/

def c4s0 : Cache := mkCache .inf none false false false false

/-- A phantom entry: `setTTL` on a key with no stored value still indexes it. -/
def c4ph : Cache := setTTL c4s0 0 5 (some (.fin 10))

/-- C4 counterexample: a reachable state (one public `setTTL(5, 10)` call on a
fresh cache, the call `get(5, {updateAgeOnGet: true})` also performs) in which
key 5 is in the expiration map and in a bucket but not in the value map, so the
claimed three-way iff fails between public calls. -/
theorem C4_counterexample :
    Reachable c4ph ∧
    (alookup c4ph.data 5).isSome = false ∧
    (alookup c4ph.expirationMap 5).isSome = true ∧
    keysList c4ph = [5] := by
  refine ⟨?_, by decide, by decide, by decide⟩
  exact Reachable.step_setTTL 0 5 (some (.fin 10))
    (Reachable.init .inf none false false false false (by decide) (by decide))

/-- C4: amended: in every state reachable by public API calls, every key of the
value map is in the expiration map, and a key's mapped expiration is `fin e`
iff it is a member of the bucket at `e` (so a finitely-indexed key is in
exactly one bucket, the one matching its current expiration).  The remaining
direction of the original claim — expiration-map membership implying value-map
membership — is false: `setTTL` on an absent key creates a phantom index entry
with no stored value. -/
theorem C4_index_invariant {s : Cache} (h : Reachable s) :
    (∀ k, (alookup s.data k).isSome → (alookup s.expirationMap k).isSome) ∧
    (∀ k e, alookup s.expirationMap k = some (.fin e) ↔
      ∃ ks, bget s.expirations e = some ks ∧ k ∈ ks) ∧
    (∀ k e1 e2 ks1 ks2, bget s.expirations e1 = some ks1 → k ∈ ks1 →
      bget s.expirations e2 = some ks2 → k ∈ ks2 → e1 = e2) := by
  have hi := reach_inv h
  refine ⟨hi.dsub, ?_, ?_⟩
  · intro k e
    constructor
    · exact hi.emem k e
    · rintro ⟨ks, hb, hm⟩
      exact hi.bmem e ks hb k hm
  · intro k e1 e2 ks1 ks2 h1 hm1 h2 hm2
    have q1 := hi.bmem e1 ks1 h1 k hm1
    have q2 := hi.bmem e2 ks2 h2 k hm2
    rw [q1] at q2
    injection q2 with q
    injection q

/-- C4 witness: the invariant evaluated on the concrete reachable phantom
state: key 5's mapped expiration is the timestamp of the one bucket holding
it. -/
theorem C4_index_invariant_witness :
    alookup c4ph.expirationMap 5 = some (ENum.fin 10) :=
  ((C4_index_invariant (Reachable.step_setTTL 0 5 (some (.fin 10))
      (Reachable.init .inf none false false false false (by decide)
        (by decide)))).2.1 5 10).mpr ⟨[5], by decide, by decide⟩

/-! ## C5: the timer invariant -/

def c5s0 : Cache := mkCache .inf (some (.fin 10)) false false false false

def c5sA : Cache := okOr (setOp c5s0 0 1 (some 1) none none none) c5s0

def c5sB : Cache := okOr (setOp c5sA 0 2 (some 2) (some (some (.fin 100))) none none) c5sA

def c5sC : Cache := (deleteKey c5sB 1).1

/-- C5 counterexample: set key 1 (expires 10) and key 2 (expires 100), then
delete key 1: the cache is nonempty so `delete` does not touch the timer, and
the reachable resulting state has its armed timer still targeting the removed
timestamp 10 while the only finite expiration present is 100 — the armed timer
does not target the minimum finite expiration present. -/
theorem C5_counterexample :
    setOp c5s0 0 1 (some 1) none none none = .ok c5sA ∧
    setOp c5sA 0 2 (some 2) (some (some (.fin 100))) none none = .ok c5sB ∧
    Reachable c5sC ∧
    c5sC.timer = some 0 ∧
    c5sC.timerExpiration = some 10 ∧
    c5sC.expirations = [(100, [2])] := by
  have h1 : setOp c5s0 0 1 (some 1) none none none = .ok c5sA := by decide
  have h2 : setOp c5sA 0 2 (some 2) (some (some (.fin 100))) none none = .ok c5sB := by
    decide
  refine ⟨h1, h2, ?_, by decide, by decide, by decide⟩
  exact Reachable.step_delete 1
    (Reachable.step_set 0 2 (some 2) (some (some (.fin 100))) none none
      (Reachable.step_set 0 1 (some 1) none none none
        (Reachable.init .inf (some (.fin 10)) false false false false
          (by decide) (by decide))
        h1)
      h2)

/-- C5: amended: in every reachable state at most one scheduled timer callback
is outstanding: the pending-callback list is empty when no timer handle is
stored, and holds exactly the stored handle with its stored target otherwise.
(The original claim's stronger clauses — that the armed timer targets the
minimum finite expiration present and that no timer is armed when no finite
expiration is present — are refuted by `C5_counterexample`: `delete` leaves a
stale timer target whenever the cache stays nonempty.) -/
theorem C5_single_timer {s : Cache} (h : Reachable s) :
    s.pending.length ≤ 1 ∧
    (s.timer = none → s.pending = []) ∧
    (∀ i, s.timer = some i →
      ∃ e, s.timerExpiration = some e ∧ s.pending = [(i, e)]) := by
  have ht := (reach_inv h).tinv
  unfold TimerInv at ht
  cases hT : s.timer with
  | none =>
    rw [hT] at ht
    cases hE : s.timerExpiration with
    | none =>
      rw [hE] at ht
      change s.pending = [] at ht
      refine ⟨by simp [ht], fun _ => ht, ?_⟩
      intro i hi
      exact absurd hi (by simp)
    | some te =>
      rw [hE] at ht
      change False at ht
      exact ht.elim
  | some id =>
    rw [hT] at ht
    cases hE : s.timerExpiration with
    | none =>
      rw [hE] at ht
      change False at ht
      exact ht.elim
    | some te =>
      rw [hE] at ht
      change s.pending = [(id, te)] at ht
      refine ⟨by simp [ht], ?_, ?_⟩
      · intro hn
        exact absurd hn (by simp)
      · intro i hi
        injection hi with hi
        subst hi
        exact ⟨te, rfl, ht⟩

/-- C5 witness: the single-timer property evaluated on the concrete reachable
state `c5sC` (whose stored handle is 0 with target 10). -/
theorem C5_single_timer_witness : c5sC.pending = [(0, 10)] := by
  have h1 : setOp c5s0 0 1 (some 1) none none none = .ok c5sA := by decide
  have h2 : setOp c5sA 0 2 (some 2) (some (some (.fin 100))) none none = .ok c5sB := by
    decide
  have hr : Reachable c5sC :=
    Reachable.step_delete 1
      (Reachable.step_set 0 2 (some 2) (some (some (.fin 100))) none none
        (Reachable.step_set 0 1 (some 1) none none none
          (Reachable.init .inf (some (.fin 10)) false false false false
            (by decide) (by decide))
          h1)
        h2)
  obtain ⟨e, he, hp⟩ := (C5_single_timer hr).2.2 0 (by decide)
  have he10 : e = 10 := by
    have hs : some e = some 10 := by rw [← he]; decide
    injection hs
  subst he10
  exact hp

/-! ## C6: clear must dispose every live key -/

def c6s0 : Cache := mkCache .inf (some (.fin 10)) false false false false

def c6sA : Cache := okOr (setOp c6s0 0 1 (some 11) (some (some .inf)) none none) c6s0

def c6sB : Cache := okOr (setOp c6sA 0 2 (some 22) none none none) c6sA

/-- C6: evidence of the code bug: in a reachable state with two live keys —
key 1 never-expiring, key 2 finite — `clear()` does leave size 0 with no timer
armed, but its `[...this]` snapshot walks only the `expirations` buckets, so
dispose (reason `delete`) fires only for key 2 and never for the live
never-expiring key 1. -/
theorem C6_clear_skips_infinity_keys :
    setOp c6s0 0 1 (some 11) (some (some .inf)) none none = .ok c6sA ∧
    setOp c6sA 0 2 (some 22) none none none = .ok c6sB ∧
    Reachable c6sB ∧
    hasKey c6sB 1 = true ∧
    hasKey c6sB 2 = true ∧
    (clear c6sB).log = [(some 22, 2, .delete)] ∧
    (clear c6sB).data = [] ∧
    (clear c6sB).timer = none ∧
    (clear c6sB).pending = [] := by
  have h1 : setOp c6s0 0 1 (some 11) (some (some .inf)) none none = .ok c6sA := by
    decide
  have h2 : setOp c6sA 0 2 (some 22) none none none = .ok c6sB := by decide
  refine ⟨h1, h2, ?_, by decide, by decide, by decide, by decide,
    by decide, by decide⟩
  exact Reachable.step_set 0 2 (some 22) none none none
    (Reachable.step_set 0 1 (some 11) (some (some .inf)) none none
      (Reachable.init .inf (some (.fin 10)) false false false false
        (by decide) (by decide))
      h1)
    h2

/-! ## C7: noUpdateTTL semantics of set on an existing key -/

theorem sizeGtMax_congr {s s' : Cache} (hm : s'.max = s.max)
    (hl : s'.data.length = s.data.length) : sizeGtMax s' = sizeGtMax s := by
  unfold sizeGtMax
  rw [hm, hl]

theorem purgeLoopF_succ_of_le {s : Cache} (f : Nat) (h : sizeGtMax s = false) :
    purgeLoopF (f + 1) s = some s := by
  show (if sizeGtMax s then purgeLoopF f (purgeToCapacity s) else some s) = some s
  rw [h]
  simp

/-- The tail of `set` immediately returns the pre-loop state when the cache is
within capacity. -/
theorem setOp_finish_eq {s1 : Cache} (h : sizeGtMax s1 = false) :
    (match purgeLoopF (s1.data.length + s1.expirations.length + 1) s1 with
     | some s2 => SetResult.ok s2
     | none => SetResult.hang) = .ok s1 := by
  rw [purgeLoopF_succ_of_le _ h]

def c7s0 : Cache := mkCache .inf (some (.fin 10)) false false false false

/-- A cache whose key 1 stores the value `undefined`. -/
def c7sA : Cache := okOr (setOp c7s0 0 1 none none none none) c7s0

/-- C7 counterexample: key 1 exists with stored value `undefined`; `set(1, 5,
{noUpdateTTL: true})` with the differing new value 5 returns the state entirely
unchanged — the stored value is NOT replaced and no dispose fires, because the
source guards the update with `oldValue !== undefined &&`. -/
theorem C7_counterexample :
    setOp c7s0 0 1 none none none none = .ok c7sA ∧
    hasKey c7sA 1 = true ∧
    flatGet c7sA.data 1 = none ∧
    setOp c7sA 0 1 (some 5) none (some true) none = .ok c7sA := by
  exact ⟨by decide, by decide, by decide, by decide⟩

/-- C7: amended: for `set(key, v, {noUpdateTTL: true})` on an existing key of a
within-capacity cache (with a valid default ttl): when the stored old value is
defined and differs from `v` it is replaced by `v`, and dispose fires exactly
once with reason `set` carrying the old value unless `noDisposeOnSet`; in every
other case — old value equal to `v` OR a stored `undefined`, whatever `v` is —
the state is returned completely unchanged (no replacement, no dispose).  In
all cases the key's expiration and every bucket are left untouched. -/
theorem C7_noUpdateTTL {s : Cache} (now k : Nat) (v : JSVal) (b : Bool)
    (hd : (alookup s.data k).isSome) (hm : (alookup s.expirationMap k).isSome)
    (ht : isPosIntOrInf s.ttl = true) (hz : sizeGtMax s = false) :
    setOp s now k v none (some true) (some b) =
      .ok (if flatGet s.data k ≠ none ∧ flatGet s.data k ≠ v then
            (if b = false then
              { s with data := aset s.data k v,
                       log := s.log ++ [(flatGet s.data k, k, .set)] }
             else { s with data := aset s.data k v })
           else s) ∧
    (∀ w : Cache, setOp s now k v none (some true) (some b) = .ok w →
      w.expirationMap = s.expirationMap ∧ w.expirations = s.expirations) := by
  have ht' : ¬ (isPosIntOrInf s.ttl = false) := by rw [ht]; simp
  have hmain : setOp s now k v none (some true) (some b) =
      .ok (if flatGet s.data k ≠ none ∧ flatGet s.data k ≠ v then
            (if b = false then
              { s with data := aset s.data k v,
                       log := s.log ++ [(flatGet s.data k, k, .set)] }
             else { s with data := aset s.data k v })
           else s) := by
    unfold setOp
    dsimp only [Option.getD]
    rw [if_neg ht', if_pos hm, if_neg (show ¬ ((true : Bool) = false) by decide)]
    by_cases hc : flatGet s.data k ≠ none ∧ flatGet s.data k ≠ v
    · rw [if_pos hc]
      cases b with
      | false =>
        rw [if_pos (show (false : Bool) = false from rfl)]
        refine setOp_finish_eq ?_
        unfold sizeGtMax
        dsimp only
        rw [length_aset_of_mem v hd]
        exact hz
      | true =>
        rw [if_neg (show ¬ ((true : Bool) = false) by decide)]
        refine setOp_finish_eq ?_
        unfold sizeGtMax
        dsimp only
        rw [length_aset_of_mem v hd]
        exact hz
    · rw [if_neg hc]
      exact setOp_finish_eq hz
  refine ⟨hmain, ?_⟩
  intro w hw
  rw [hmain] at hw
  injection hw with hw
  subst hw
  by_cases hc : flatGet s.data k ≠ none ∧ flatGet s.data k ≠ v
  · rw [if_pos hc]
    cases b with
    | false =>
      rw [if_pos (show (false : Bool) = false from rfl)]
      exact ⟨rfl, rfl⟩
    | true =>
      rw [if_neg (show ¬ ((true : Bool) = false) by decide)]
      exact ⟨rfl, rfl⟩
  · rw [if_neg hc]
    exact ⟨rfl, rfl⟩

/-- C7 witness: the amended behaviour evaluated on the concrete cache `c7sA`
whose key 1 stores `undefined`: setting the differing value 5 with
`noUpdateTTL` returns the unchanged state. -/
theorem C7_noUpdateTTL_witness :
    setOp c7sA 0 1 (some 5) none (some true) (some false) =
      .ok (if flatGet c7sA.data 1 ≠ none ∧ flatGet c7sA.data 1 ≠ some 5 then
            (if (false : Bool) = false then
              { c7sA with data := aset c7sA.data 1 (some 5),
                          log := c7sA.log ++ [(flatGet c7sA.data 1, 1, .set)] }
             else { c7sA with data := aset c7sA.data 1 (some 5) })
           else c7sA) :=
  (C7_noUpdateTTL 0 1 (some 5) false (by decide) (by decide) (by decide)
    (by decide)).1

/-! ## C8: full detach before any dispose callback of a batch -/

/-- C8: whenever `purgeStale` or `purgeToCapacity` is about to invoke the
dispose callbacks for a removed batch (any callback `d`, so in particular a
re-entrant one), the state handed to the first callback already has every key
of the batch deleted from the value map and the expiration map, and the batch's
bucket already detached from the Expiration Index: `purgeStale` and the
whole-bucket branch of `purgeToCapacity` have dropped the bucket itself (gone
from the index, whose remaining timestamps never repeat the dropped one), and
the splice branch has restricted the bucket to its non-evicted suffix, which
shares no key with the evicted prefix. -/
theorem C8_detach_before_dispose (d : DisposeFn) (now f : Nat) (s : Cache)
    (e : Nat) (ks : List Nat) (rest : List (Nat × List Nat))
    (hexp : s.expirations = (e, ks) :: rest) :
    (¬ now < e →
      psAux d now (f + 1) s =
        psAux d now f (disposeFold d .stale (detachAll s.data s.expirationMap ks).2.2
          { s with expirations := rest,
                   data := (detachAll s.data s.expirationMap ks).1,
                   expirationMap := (detachAll s.data s.expirationMap ks).2.1 }) ∧
      (∀ k ∈ ks,
        alookup (detachAll s.data s.expirationMap ks).1 k = none ∧
        alookup (detachAll s.data s.expirationMap ks).2.1 k = none) ∧
      ((s.expirations.map Prod.fst).Nodup → alookup rest e = none)) ∧
    (evictWholeBucket s ks = true →
      ptcAux d (f + 1) s =
        ptcAux d f (disposeFold d .evict (detachAll s.data s.expirationMap ks).2.2
          { s with expirations := rest,
                   data := (detachAll s.data s.expirationMap ks).1,
                   expirationMap := (detachAll s.data s.expirationMap ks).2.1 }) ∧
      (∀ k ∈ ks,
        alookup (detachAll s.data s.expirationMap ks).1 k = none ∧
        alookup (detachAll s.data s.expirationMap ks).2.1 k = none) ∧
      ((s.expirations.map Prod.fst).Nodup → alookup rest e = none)) ∧
    (evictWholeBucket s ks = false →
      ptcAux d (f + 1) s =
        disposeFold d .evict
          (detachAll s.data s.expirationMap (ks.take (spliceCount s))).2.2
          { s with
              expirations := (e, ks.drop (spliceCount s)) :: rest,
              data := (detachAll s.data s.expirationMap (ks.take (spliceCount s))).1,
              expirationMap :=
                (detachAll s.data s.expirationMap (ks.take (spliceCount s))).2.1 } ∧
      ∀ k ∈ ks.take (spliceCount s),
        alookup (detachAll s.data s.expirationMap (ks.take (spliceCount s))).1 k
          = none ∧
        alookup (detachAll s.data s.expirationMap (ks.take (spliceCount s))).2.1 k
          = none ∧
        (ks.Nodup → k ∉ ks.drop (spliceCount s))) := by
  obtain ⟨E, dm, em, tl, mx, u, cg, nu, nd, ti, te, pe, ni, lg⟩ := s
  dsimp only at hexp ⊢
  subst hexp
  refine ⟨?_, ?_, ?_⟩
  · intro hnl
    refine ⟨?_, ?_, ?_⟩
    · rw [psAux]
      dsimp only
      rw [if_neg hnl]
    · intro k hk
      refine ⟨?_, ?_⟩
      · rw [detachAll_data_alookup]
        simp [hk]
      · rw [detachAll_em_alookup]
        simp [hk]
    · intro hnd
      simp only [List.map_cons] at hnd
      exact alookup_eq_none_of_not_mem_fst (List.nodup_cons.mp hnd).1
  · intro hw
    refine ⟨?_, ?_, ?_⟩
    · rw [ptcAux]
      dsimp only
      rw [if_pos hw]
    · intro k hk
      refine ⟨?_, ?_⟩
      · rw [detachAll_data_alookup]
        simp [hk]
      · rw [detachAll_em_alookup]
        simp [hk]
    · intro hnd
      simp only [List.map_cons] at hnd
      exact alookup_eq_none_of_not_mem_fst (List.nodup_cons.mp hnd).1
  · intro hw
    refine ⟨?_, ?_⟩
    · rw [ptcAux]
      dsimp only
      simp only [hw]
      rw [if_neg (show ¬ ((false : Bool) = true) by decide)]
    · intro k hk
      refine ⟨?_, ?_, ?_⟩
      · rw [detachAll_data_alookup]
        simp [hk]
      · rw [detachAll_em_alookup]
        simp [hk]
      · intro hnd
        have hsplit := hnd
        rw [← List.take_append_drop (spliceCount
          { expirations := (e, ks) :: rest, data := dm, expirationMap := em,
            ttl := tl, max := mx, updateAgeOnGet := u, checkAgeOnGet := cg,
            noUpdateTTL := nu, noDisposeOnSet := nd, timer := ti,
            timerExpiration := te, pending := pe, nextId := ni, log := lg }) ks]
          at hsplit
        exact fun hmem => (List.nodup_append.mp hsplit).2.2 hk hmem

def c8s0 : Cache := mkCache .inf (some (.fin 10)) false false false false

def c8s : Cache := okOr (setOp c8s0 0 1 (some 7) none none none) c8s0

/-- C8 witness: the detach property evaluated at a concrete expired batch: in
the state handed to the dispose callbacks of `purgeStale` at time 10 on `c8s`
(one bucket `(10, [1])`), key 1 is already gone from both maps. -/
theorem C8_detach_before_dispose_witness :
    alookup (detachAll c8s.data c8s.expirationMap [1]).1 1 = none ∧
    alookup (detachAll c8s.data c8s.expirationMap [1]).2.1 1 = none := by
  have h := ((C8_detach_before_dispose logD 10 1 c8s 10 [1] []
    (by decide)).1 (by decide)).2.1 1 (by decide)
  exact h

/-! ## C9: checkAgeOnGet -/

/-- C9: on any reachable cache still holding key `k` in its value map although
`k`'s remaining TTL at `now` is zero, `get(k, {checkAgeOnGet: true})` (with
`updateAgeOnGet` off) deletes the entry — dispose fires with reason `delete`
carrying the stale stored value — and returns absent, while
`get(k, {checkAgeOnGet: false})` on the same still-present stale key returns
the stale stored value and changes nothing. -/
theorem C9_checkAgeOnGet {s : Cache} (now k : Nat) (h : Reachable s)
    (hk : hasKey s k = true) (hst : getRemainingTTL s now k = .fin 0) :
    (getOp s now k (some false) none (some true)).1 = none ∧
    hasKey (getOp s now k (some false) none (some true)).2 k = false ∧
    (getOp s now k (some false) none (some true)).2.log =
      s.log ++ [(flatGet s.data k, k, Reason.delete)] ∧
    (getOp s now k (some false) none (some false)).1 = flatGet s.data k ∧
    (getOp s now k (some false) none (some false)).2 = s := by
  have hd : (alookup s.expirationMap k).isSome = true := (reach_inv h).dsub k hk
  obtain ⟨cur, hcur⟩ := Option.isSome_iff_exists.mp hd
  have hTrue : getOp s now k (some false) none (some true) =
      (none, (deleteKey s k).1) := by
    unfold getOp
    dsimp only [Option.getD]
    rw [if_pos ⟨rfl, hst⟩]
  have hFalse : getOp s now k (some false) none (some false) =
      (flatGet s.data k, s) := by
    unfold getOp
    dsimp only [Option.getD]
    rw [if_neg (fun hh => absurd hh.1 (by decide))]
    rw [if_neg (show ¬ ((false : Bool) = true) by decide)]
  have hDelData : alookup ((deleteKey s k).1).data k = none := by
    unfold deleteKey
    rw [hcur]
    dsimp only
    cases cur with
    | inf =>
      dsimp only
      split
      · rw [(cancelTimer_fields _).2.1]
        show alookup (aerase s.data k) k = none
        exact alookup_aerase_self s.data k
      · show alookup (aerase s.data k) k = none
        exact alookup_aerase_self s.data k
    | fin e =>
      dsimp only
      split
      · rw [(cancelTimer_fields _).2.1]
        show alookup (aerase s.data k) k = none
        exact alookup_aerase_self s.data k
      · show alookup (aerase s.data k) k = none
        exact alookup_aerase_self s.data k
  have hDelLog : ((deleteKey s k).1).log =
      s.log ++ [(flatGet s.data k, k, Reason.delete)] := by
    unfold deleteKey
    rw [hcur]
    dsimp only
    cases cur with
    | inf =>
      dsimp only
      split
      · rw [cancelTimer_log]
      · rfl
    | fin e =>
      dsimp only
      split
      · rw [cancelTimer_log]
      · rfl
  refine ⟨?_, ?_, ?_, ?_, ?_⟩
  · rw [hTrue]
  · rw [hTrue]
    show (alookup ((deleteKey s k).1).data k).isSome = false
    rw [hDelData]
    rfl
  · rw [hTrue]
    exact hDelLog
  · rw [hFalse]
  · rw [hFalse]

def c9s0 : Cache := mkCache .inf (some (.fin 10)) false false false false

def c9sA : Cache := okOr (setOp c9s0 0 1 (some 5) none none none) c9s0

/-- C9 witness: on the concrete reachable cache `c9sA` (key 1 set at time 0
with ttl 10, so stale at time 10 while still stored), the checked get returns
absent and the unchecked get returns the stale stored value. -/
theorem C9_checkAgeOnGet_witness :
    (getOp c9sA 10 1 (some false) none (some true)).1 = none ∧
    (getOp c9sA 10 1 (some false) none (some false)).1 = flatGet c9sA.data 1 := by
  have h1 : setOp c9s0 0 1 (some 5) none none none = .ok c9sA := by decide
  have hr : Reachable c9sA :=
    Reachable.step_set 0 1 (some 5) none none none
      (Reachable.init .inf (some (.fin 10)) false false false false
        (by decide) (by decide))
      h1
  have h := C9_checkAgeOnGet 10 1 hr (by decide) (by decide)
  exact ⟨h.1, h.2.2.2.1⟩

/-! ## C10: phantom entries created by setTTL on an absent key -/

theorem setTTL_em_self_fin (s : Cache) (now k n : Nat) (hn : ¬ n = 0) :
    alookup (setTTL s now k (some (.fin n))).expirationMap k =
      some (.fin (now + n)) := by
  unfold setTTL setTTLinsert
  dsimp only
  rw [if_neg hn]
  by_cases hb : (bget (setTTLremove s k).expirations (now + n)).isNone = true
  · rw [if_pos hb]
    show alookup (setTimer { setTTLremove s k with
        expirationMap := aset (setTTLremove s k).expirationMap k (.fin (now + n)),
        expirations := binsertEmpty (setTTLremove s k).expirations (now + n) }
        (now + n)).expirationMap k = some (.fin (now + n))
    rw [(setTimer_fields _ _).2.2]
    show alookup (aset (setTTLremove s k).expirationMap k (.fin (now + n))) k =
      some (.fin (now + n))
    rw [alookup_aset_self]
  · rw [if_neg hb]
    show alookup (aset (setTTLremove s k).expirationMap k (.fin (now + n))) k =
      some (.fin (now + n))
    rw [alookup_aset_self]

theorem setTTL_key_in_bucket (s : Cache) (now k n : Nat) (hn : ¬ n = 0) :
    ∃ ks, bget (setTTL s now k (some (.fin n))).expirations (now + n) = some ks ∧
      k ∈ ks := by
  unfold setTTL setTTLinsert
  dsimp only
  rw [if_neg hn]
  by_cases hb : (bget (setTTLremove s k).expirations (now + n)).isNone = true
  · rw [if_pos hb]
    refine ⟨[k], ?_, by simp⟩
    show alookup (bappendKey (setTimer { setTTLremove s k with
        expirationMap := aset (setTTLremove s k).expirationMap k (.fin (now + n)),
        expirations := binsertEmpty (setTTLremove s k).expirations (now + n) }
        (now + n)).expirations (now + n) k) (now + n) = some [k]
    rw [(setTimer_fields _ _).1]
    show alookup (bappendKey (binsertEmpty (setTTLremove s k).expirations (now + n))
      (now + n) k) (now + n) = some [k]
    unfold bappendKey
    rw [alookup_amodify_self _
      (alookup_binsertEmpty_self (Option.isNone_iff_eq_none.mp hb))]
    simp
  · rw [if_neg hb]
    cases hq : bget (setTTLremove s k).expirations (now + n) with
    | none => exact absurd (by rw [hq]; rfl) hb
    | some ks0 =>
      refine ⟨ks0 ++ [k], ?_, by simp⟩
      show alookup (bappendKey (setTTLremove s k).expirations (now + n) k)
        (now + n) = some (ks0 ++ [k])
      unfold bappendKey
      rw [alookup_amodify_self _ hq]

/-- C10: for every key `k` absent from the value map and every positive finite
ttl `n`, `setTTL(k, n)` at time `now` leaves `has(k)` false with the value map
(and hence size) unchanged and every `get(k)` absent, yet afterwards the key is
fully indexed: `getRemainingTTL(k)` is `n` (positive), `k` is yielded by the
bucket walk of `keys()`, and `delete(k)` returns true, invoking dispose with
the `undefined` value; `get(k, {updateAgeOnGet: true, ttl: n})` performs
exactly this `setTTL` call. -/
theorem C10_phantom_entries {s : Cache} (now k n : Nat)
    (hk : hasKey s k = false) (hn : 1 ≤ n) :
    hasKey (setTTL s now k (some (.fin n))) k = false ∧
    (setTTL s now k (some (.fin n))).data = s.data ∧
    (∀ now2 uO tO cO, (getOp (setTTL s now k (some (.fin n))) now2 k uO tO cO).1
      = none) ∧
    getRemainingTTL (setTTL s now k (some (.fin n))) now k = .fin n ∧
    k ∈ keysList (setTTL s now k (some (.fin n))) ∧
    (deleteKey (setTTL s now k (some (.fin n))) k).2 = true ∧
    (deleteKey (setTTL s now k (some (.fin n))) k).1.log =
      (setTTL s now k (some (.fin n))).log ++
        ([((none : JSVal), k, Reason.delete)] : List (JSVal × Nat × Reason)) ∧
    (getOp s now k (some true) (some (some (.fin n))) (some false)).2 =
      setTTL s now k (some (.fin n)) := by
  have hn0 : ¬ n = 0 := by omega
  have hdata := (setTTL_data_log s now k (some (.fin n))).1
  have hknone : alookup s.data k = none := by
    unfold hasKey at hk
    cases hq : alookup s.data k with
    | none => rfl
    | some v =>
      rw [hq] at hk
      simp at hk
  have hflat : flatGet s.data k = none := by
    unfold flatGet
    rw [hknone]
  have hem := setTTL_em_self_fin s now k n hn0
  refine ⟨?_, hdata, ?_, ?_, ?_, ?_, ?_, ?_⟩
  · show (alookup (setTTL s now k (some (.fin n))).data k).isSome = false
    rw [hdata, hknone]
    rfl
  · intro now2 uO tO cO
    unfold getOp
    dsimp only
    split
    · rfl
    · show flatGet (setTTL s now k (some (.fin n))).data k = none
      rw [hdata]
      exact hflat
  · unfold getRemainingTTL
    rw [hem]
    dsimp only
    have hsub : now + n - now = n := by omega
    rw [hsub]
  · obtain ⟨ks, hks, hkk⟩ := setTTL_key_in_bucket s now k n hn0
    exact mem_foldr_buckets (mem_of_alookup_eq_some hks) hkk
  · unfold deleteKey
    rw [hem]
  · unfold deleteKey
    rw [hem]
    dsimp only
    rw [hdata, hflat]
    split
    · rw [cancelTimer_log]
    · rfl
  · unfold getOp
    dsimp only [Option.getD]
    rw [if_neg (fun hh => absurd hh.1 (by decide))]
    rw [if_pos rfl]

/-- C10 witness: the phantom-entry behaviour evaluated at key 5 with ttl 10 on
a fresh cache. -/
theorem C10_phantom_entries_witness :
    hasKey (setTTL (mkCache .inf none false false false false) 0 5
      (some (.fin 10))) 5 = false :=
  (C10_phantom_entries 0 5 10 (by decide) (by decide)).1
